import Mathlib

/-!
Shallow embedding of the liquidation core of the `defi-amm-simulator` repository:
the `LiquidationEngine` commit-reveal batch auction
(`src/contracts/liquidation/LiquidationEngine.sol`) and the `VaultManager`
health / liquidation accounting (`src/contracts/vault/VaultManager.sol`).

Machine integers (`uint256`) are modelled as `Nat` together with explicit
bound checks against `U256MAX`: Solidity 0.8 checked arithmetic reverts on
overflow / underflow / division by zero, which the embedding models with the
`Except Err` monad (`uadd`, `umul`, `usub`, `udiv`).  A reverted call leaves
the contract state unchanged, which the embedding reflects by returning
`Except.error` without producing a new state.

External collaborators (collateral adapter, oracle) are modelled as pure
functions supplied in an `Env`; per the spec they are out of scope and the
claims under verification always read them through a successful call.
`keccak256 (abi.encode (vaultId, qty, price, salt, bidder))` is modelled as an
ideal (injective, never zero) hash built from `Nat.pair`; this is the standard
collision-free idealization of keccak.  Emitted Solidity events are recorded
in an event log inside each contract's state.
-/

namespace DefiAmm

def WAD : Nat := 10 ^ 18

def MAX_BPS : Nat := 10000

def MCR_BPS : Nat := 12000

def U256MAX : Nat := 2 ^ 256 - 1

/-- Error kinds: Solidity 0.8 arithmetic panics plus the custom errors
declared by `LiquidationEngine` and `VaultManager`. -/
inductive Err where
  | Overflow
  | Underflow
  | DivByZero
  | InvalidBatchId
  | BatchNotActive
  | CommitWindowClosed
  | RevealWindowClosed
  | NotInCommitPhase
  | NotInRevealPhase
  | CannotSettleYet
  | InsufficientBond
  | InvalidReveal
  | AlreadyRevealed
  | NoCommitmentFound
  | BatchAlreadySettled
  | EmptyQueue
  | VaultAlreadyQueued
  | CollateralDisabled
  | UnsafePosition
  | NotEnoughShares
  | VaultNotFound
  | NotVaultOwner
  | InvalidCollateralType
  | ArrayLengthMismatch
  | MathOverflow
  | InvalidAmount
  | VaultInactive
  | LTVExceedsMaximum
  | InsufficientCollateral
  | NotLiquidationEngine
  | VaultHealthy
  | InvalidLiquidationEngine
  | Paused
  | MissingRole
  deriving DecidableEq

/-- Solidity 0.8 checked `+` on `uint256`. -/
def uadd (a b : Nat) : Except Err Nat :=
  if a + b ≤ U256MAX then .ok (a + b) else .error .Overflow

/-- Solidity 0.8 checked `*` on `uint256`. -/
def umul (a b : Nat) : Except Err Nat :=
  if a * b ≤ U256MAX then .ok (a * b) else .error .Overflow

/-- Solidity 0.8 checked `-` on `uint256`. -/
def usub (a b : Nat) : Except Err Nat :=
  if b ≤ a then .ok (a - b) else .error .Underflow

/-- Solidity `/` on `uint256`: panics on division by zero. -/
def udiv (a b : Nat) : Except Err Nat :=
  if b = 0 then .error .DivByZero else .ok (a / b)

/-- Pointwise update of a mapping (Solidity storage mapping write). -/
def setFn {α : Type} (f : Nat → α) (k : Nat) (v : α) : Nat → α :=
  fun x => if x = k then v else f x

/-- Pointwise update of a two-key mapping. -/
def setFn2 {α : Type} (f : Nat → Nat → α) (k1 k2 : Nat) (v : α) : Nat → Nat → α :=
  fun x y => if x = k1 ∧ y = k2 then v else f x y

/-- Ideal model of `keccak256(abi.encode(vaultId, qty, price, salt, msg.sender))`:
injective and never equal to `bytes32(0)` (collision-free idealization). -/
def keccakBid (vaultId qty price salt bidder : Nat) : Nat :=
  Nat.pair vaultId (Nat.pair qty (Nat.pair price (Nat.pair salt bidder))) + 1

-- =============================================================================
-- LiquidationEngine data model (LiquidationEngine.sol)
-- =============================================================================

/-- Struct `LiquidationEngine.Bid` (post-reveal record). -/
structure Bid where
  bidder : Nat
  vaultId : Nat
  qty : Nat
  price : Nat
  saltHash : Nat
  revealed : Bool
  valid : Bool
  deriving DecidableEq

/-- Struct `LiquidationEngine.Batch`. -/
structure Batch where
  startCommitTs : Nat
  startRevealTs : Nat
  vaultIds : List Nat
  totalQtyOffered : Nat
  clearingPrice : Nat
  revealedBids : List Bid
  settled : Bool
  deriving DecidableEq

/-- A batch mapping slot that was never written. -/
def emptyBatch : Batch :=
  { startCommitTs := 0, startRevealTs := 0, vaultIds := [], totalQtyOffered := 0,
    clearingPrice := 0, revealedBids := [], settled := false }

/-- Solidity events emitted by `LiquidationEngine`. -/
inductive EngEvent where
  | BatchEnqueued (batchId vaultId : Nat)
  | BatchStarted (batchId startCommitTs startRevealTs : Nat)
  | BidCommitted (batchId bidder commitment bond : Nat)
  | BidRevealed (batchId bidder vaultId qty price : Nat) (valid : Bool)
  | BatchSettled (batchId clearingPrice totalFilled : Nat)
  | BondRefunded (batchId bidder amount : Nat)
  | BondSlashed (batchId bidder amount : Nat)
  deriving DecidableEq

/-- Constructor immutables of `LiquidationEngine`, plus the engine's own
address (the `msg.sender` seen by the `VaultManager` callback). -/
structure EngCfg where
  COMMIT_WINDOW : Nat
  REVEAL_WINDOW : Nat
  minCommitBond : Nat
  minLot : Nat
  maxBatchSize : Nat
  engineAddr : Nat

/-- Mutable storage of `LiquidationEngine`.  Addresses and `bytes32` words are
`Nat` (0 plays the role of `address(0)` / `bytes32(0)`). -/
structure EngineState where
  activeBatchId : Nat
  vaultQueue : List Nat
  vaultQueued : Nat → Bool
  batches : Nat → Batch
  commitments : Nat → Nat → Nat
  bonds : Nat → Nat → Nat
  liqRole : Nat → Bool
  events : List EngEvent

/-- Engine state right after the constructor ran with `deployer` as sender. -/
def initEngine (deployer : Nat) : EngineState :=
  { activeBatchId := 0, vaultQueue := [], vaultQueued := fun _ => false,
    batches := fun _ => emptyBatch, commitments := fun _ _ => 0,
    bonds := fun _ _ => 0, liqRole := fun a => a == deployer, events := [] }

-- =============================================================================
-- LiquidationEngine operations
-- =============================================================================

/-- Function `LiquidationEngine.enqueue` (guarded by `LIQUIDATOR_ROLE`). -/
def enqueue (s : EngineState) (caller vaultId : Nat) : Except Err EngineState :=
  if s.liqRole caller = false then .error .MissingRole
  else if s.vaultQueued vaultId then .error .VaultAlreadyQueued
  else .ok { s with
    vaultQueue := s.vaultQueue ++ [vaultId],
    vaultQueued := setFn s.vaultQueued vaultId true,
    events := .BatchEnqueued s.activeBatchId vaultId :: s.events }

/-- Function `LiquidationEngine.startBatch`.  The source's shift-then-pop loops on
`vaultQueue` net to dropping the first `batchSize` entries, and the
`totalQtyOffered += minLot` loop is the checked sum of `batchSize` copies of
`minLot`. -/
def startBatchCore (cfg : EngCfg) (s : EngineState) (t : Nat) : Except Err EngineState :=
  match uadd s.activeBatchId 1 with
  | .error e => .error e
  | .ok newId =>
    match uadd t cfg.COMMIT_WINDOW with
    | .error e => .error e
    | .ok srv =>
      let batchSize := if cfg.maxBatchSize < s.vaultQueue.length then cfg.maxBatchSize else s.vaultQueue.length
      let moved := s.vaultQueue.take batchSize
      match (List.replicate batchSize cfg.minLot).foldlM uadd 0 with
      | .error e => .error e
      | .ok tq =>
        let nb : Batch :=
          { startCommitTs := t, startRevealTs := srv, vaultIds := moved,
            totalQtyOffered := tq, clearingPrice := 0, revealedBids := [], settled := false }
        .ok { s with
          activeBatchId := newId,
          batches := setFn s.batches newId nb,
          vaultQueue := s.vaultQueue.drop batchSize,
          vaultQueued := moved.foldl (fun f v => setFn f v false) s.vaultQueued,
          events := .BatchStarted newId t srv :: s.events }

def startBatch (cfg : EngCfg) (s : EngineState) (t : Nat) : Except Err EngineState :=
  if s.vaultQueue.length = 0 then .error .EmptyQueue
  else
    let cur := s.batches s.activeBatchId
    if 0 < cur.startCommitTs ∧ cur.settled = false then
      match uadd cur.startRevealTs cfg.REVEAL_WINDOW with
      | .error e => .error e
      | .ok dl =>
        if t < dl then .error .BatchNotActive
        else startBatchCore cfg s t
    else startBatchCore cfg s t

/-- Function `LiquidationEngine.commitBid` (payable; `value` is `msg.value`). -/
def commitBid (cfg : EngCfg) (s : EngineState) (caller value batchId commitment t : Nat) :
    Except Err EngineState :=
  if batchId = 0 ∨ s.activeBatchId < batchId then .error .InvalidBatchId
  else if value < cfg.minCommitBond then .error .InsufficientBond
  else
    let batch := s.batches batchId
    if batch.startCommitTs = 0 then .error .InvalidBatchId
    else if batch.startRevealTs ≤ t then .error .CommitWindowClosed
    else if batch.settled then .error .BatchAlreadySettled
    else .ok { s with
      commitments := setFn2 s.commitments batchId caller commitment,
      bonds := setFn2 s.bonds batchId caller value,
      events := .BidCommitted batchId caller commitment value :: s.events }

/-- Function `LiquidationEngine.revealBid`.  The bond refund transfer on a valid reveal
is recorded through the `BondRefunded` event (the transfer is modelled as
always succeeding). -/
def revealBid (cfg : EngCfg) (s : EngineState) (caller batchId vaultId qty price salt t : Nat) :
    Except Err EngineState :=
  if batchId = 0 ∨ s.activeBatchId < batchId then .error .InvalidBatchId
  else
    let batch := s.batches batchId
    if t < batch.startRevealTs then .error .NotInRevealPhase
    else
      match uadd batch.startRevealTs cfg.REVEAL_WINDOW with
      | .error e => .error e
      | .ok dl =>
        if dl ≤ t then .error .RevealWindowClosed
        else if batch.settled then .error .BatchAlreadySettled
        else
          let stored := s.commitments batchId caller
          if stored = 0 then .error .NoCommitmentFound
          else
            let isValid : Bool := keccakBid vaultId qty price salt caller == stored
            let bid : Bid :=
              { bidder := caller, vaultId := vaultId, qty := qty, price := price,
                saltHash := salt, revealed := true, valid := isValid }
            let s1 := { s with
              batches := setFn s.batches batchId
                { batch with revealedBids := batch.revealedBids ++ [bid] } }
            let s2 :=
              if isValid then
                { s1 with
                  bonds := setFn2 s1.bonds batchId caller 0,
                  events := .BondRefunded batchId caller (s.bonds batchId caller) :: s1.events }
              else s1
            .ok { s2 with
              events := .BidRevealed batchId caller vaultId qty price isValid :: s2.events }

-- =============================================================================
-- Clearing price (LiquidationEngine._calculateClearingPrice)
-- =============================================================================

/-- One pass of the source's adjacent-swap bubble sort on bid prices
(descending: swap when the left price is strictly below the right one). -/
def bubblePass : List Bid → List Bid
  | [] => []
  | [a] => [a]
  | a :: b :: rest =>
      if a.price < b.price then b :: bubblePass (a :: rest) else a :: bubblePass (b :: rest)

/-- Runs `k` bubble passes (the source's outer loop). -/
def bubbleIter : Nat → List Bid → List Bid
  | 0, l => l
  | k + 1, l => bubbleIter k (bubblePass l)

/-- The source's bubble sort: `length - 1` passes. -/
def bubbleSort (l : List Bid) : List Bid := bubbleIter (l.length - 1) l

/-- The source's cumulative walk, ideal arithmetic: returns the price of the
first bid at which the running quantity reaches `T`. -/
def scanCross (T : Nat) : Nat → List Bid → Option Nat
  | _, [] => none
  | acc, b :: rest =>
      if T ≤ acc + b.qty then some b.price else scanCross T (acc + b.qty) rest

/-- The source's cumulative walk with Solidity checked addition
(`cumulativeQty += validBids[i].qty`). -/
def scanCrossChecked (T : Nat) : Nat → List Bid → Except Err (Option Nat)
  | _, [] => .ok none
  | acc, b :: rest =>
      match uadd acc b.qty with
      | .error e => .error e
      | .ok acc2 => if T ≤ acc2 then .ok (some b.price) else scanCrossChecked T acc2 rest

/-- The zero value of the `Bid` struct. -/
def dummyBid : Bid :=
  { bidder := 0, vaultId := 0, qty := 0, price := 0, saltHash := 0,
    revealed := false, valid := false }

/-- Function `LiquidationEngine._calculateClearingPrice`: filter to valid bids, bubble
sort by price descending, walk accumulating quantity; fall back to the last
(lowest-priced) sorted bid when demand is short, and to 0 with no valid bids. -/
def calculateClearingPrice (batch : Batch) : Except Err Nat :=
  if batch.revealedBids.length = 0 then .ok 0
  else
    let validBids := batch.revealedBids.filter (fun b => b.valid)
    if validBids.length = 0 then .ok 0
    else
      let sorted := bubbleSort validBids
      match scanCrossChecked batch.totalQtyOffered 0 sorted with
      | .error e => .error e
      | .ok (some p) => .ok p
      | .ok none => .ok ((sorted.getLast?).getD dummyBid).price

-- =============================================================================
-- VaultManager data model (VaultManager.sol)
-- =============================================================================

/-- Struct `VaultManager.CollateralConfig` (`ltvBps` is a `uint16`, `0..10000` after
`setCollateral`'s bound check). -/
structure CollateralConfig where
  adapter : Nat
  ltvBps : Nat
  enabled : Bool
  deriving DecidableEq

/-- Struct `VaultManager.Position` (the vault record). -/
structure Position where
  shares : Nat
  debt : Nat
  active : Bool
  deriving DecidableEq

/-- Solidity events emitted by the embedded `VaultManager` operations. -/
inductive VMEvent where
  | SetCollateralEvt (key adapter ltvBps : Nat) (enabled : Bool)
  | BorrowEvt (user vaultId amount : Nat)
  | WithdrawEvt (user vaultId shares assets : Nat)
  | LiquidationSettled (vaultIds filledQty : List Nat) (clearingPrice : Nat)
  | CollateralLiquidated (vaultId owner collateralQty debtBurned penalty : Nat)
  deriving DecidableEq

/-- Mutable storage of `VaultManager` (the fields the verified claims read).
`vaultOwner v = 0` encodes `address(0)`, i.e. a vault that does not exist. -/
structure VMState where
  nextVaultId : Nat
  vaultOwner : Nat → Nat
  vaultCollateralType : Nat → Nat
  collaterals : Nat → CollateralConfig
  vaults : Nat → Position
  paused : Bool
  liquidationEngine : Nat
  riskAdmin : Nat → Bool
  events : List VMEvent

/-- External collaborators, as pure functions: the collateral adapter's
share-to-asset conversions and the guarded oracle's price (the claims under
verification always read them through a successful call). -/
structure Env where
  valueOf : Nat → Nat → Nat
  adapterAsset : Nat → Nat
  price : Nat → Nat
  withdrawOf : Nat → Nat → Nat

-- =============================================================================
-- VaultManager operations
-- =============================================================================

/-- Function `VaultManager.setCollateral` (guarded by `RISK_ADMIN`): rejects only
`ltvBps > 10000`; in particular `ltvBps = 0` is accepted. -/
def setCollateral (vm : VMState) (caller key adapter ltvBps : Nat) (enabled : Bool) :
    Except Err VMState :=
  if vm.riskAdmin caller = false then .error .MissingRole
  else if MAX_BPS < ltvBps then .error .LTVExceedsMaximum
  else .ok { vm with
    collaterals := setFn vm.collaterals key { adapter := adapter, ltvBps := ltvBps, enabled := enabled },
    events := .SetCollateralEvt key adapter ltvBps enabled :: vm.events }

/-- Function `VaultManager._getVaultHealth`: returns
`(collateralValueWad, debt, ltvBps, healthy)`.  Note the source computes
`collateralValueWad = assets * priceWad` (no division by `WAD`), and for
`debt > 0`, nonzero value, the overflow guard divides `type(uint256).max` by
`ltvBps`, which panics when `ltvBps = 0`. -/
def getVaultHealth (env : Env) (vm : VMState) (vaultId : Nat) :
    Except Err (Nat × Nat × Nat × Bool) :=
  let vault := vm.vaults vaultId
  let config := vm.collaterals (vm.vaultCollateralType vaultId)
  let debt := vault.debt
  let ltvBps := config.ltvBps
  if config.enabled = false ∨ vault.active = false then
    .ok (0, debt, ltvBps, decide (debt = 0))
  else
    let assets := env.valueOf config.adapter vault.shares
    let priceWad := env.price (env.adapterAsset config.adapter)
    if 0 < assets ∧ U256MAX / assets < priceWad then .error .MathOverflow
    else
      let collateralValueWad := assets * priceWad
      if debt = 0 then .ok (collateralValueWad, debt, ltvBps, true)
      else if collateralValueWad = 0 then .ok (collateralValueWad, debt, ltvBps, false)
      else
        match udiv U256MAX ltvBps with
        | .error e => .error e
        | .ok bound =>
          if bound < collateralValueWad then .ok (collateralValueWad, debt, ltvBps, true)
          else .ok (collateralValueWad, debt, ltvBps, decide (debt ≤ collateralValueWad * ltvBps / MAX_BPS))

/-- Function `VaultManager._isVaultHealthy`. -/
def isVaultHealthy (env : Env) (vm : VMState) (vaultId : Nat) : Except Err Bool :=
  match getVaultHealth env vm vaultId with
  | .error e => .error e
  | .ok r => .ok r.2.2.2

/-- Function `VaultManager.vaultHealth` (external view, `vaultExists`-guarded). -/
def vaultHealth (env : Env) (vm : VMState) (vaultId : Nat) :
    Except Err (Nat × Nat × Nat × Bool) :=
  if vm.vaultOwner vaultId = 0 then .error .VaultNotFound
  else getVaultHealth env vm vaultId

/-- Function `VaultManager._isLiquidationEligible`, also exposed as `isLiquidationEligible`. -/
def isLiquidationEligible (env : Env) (vm : VMState) (vaultId : Nat) : Except Err Bool :=
  let vault := vm.vaults vaultId
  if vault.active = false ∨ vault.debt = 0 then .ok false
  else
    match getVaultHealth env vm vaultId with
    | .error e => .error e
    | .ok r =>
      let collateralValueWad := r.1
      let debt := r.2.1
      if collateralValueWad = 0 then .ok true
      else if U256MAX / MCR_BPS < debt then .ok true
      else .ok (decide (collateralValueWad < debt * MCR_BPS / MAX_BPS))

/-- Function `VaultManager.borrow` (modifier order: `whenNotPaused`, `vaultExists`,
`onlyVaultOwner`, `vaultActive`, `validAmount`; the mint to the owner is an
external collaborator call). -/
def borrow (env : Env) (vm : VMState) (caller vaultId amount : Nat) : Except Err VMState :=
  if vm.paused then .error .Paused
  else if vm.vaultOwner vaultId = 0 then .error .VaultNotFound
  else if vm.vaultOwner vaultId ≠ caller then .error .NotVaultOwner
  else if (vm.vaults vaultId).active = false then .error .VaultInactive
  else if amount = 0 then .error .InvalidAmount
  else
    let vault := vm.vaults vaultId
    match uadd vault.debt amount with
    | .error e => .error e
    | .ok newDebt =>
      if newDebt < vault.debt then .error .MathOverflow
      else
        let vm1 := { vm with vaults := setFn vm.vaults vaultId { vault with debt := newDebt } }
        match isVaultHealthy env vm1 vaultId with
        | .error e => .error e
        | .ok healthy =>
          if healthy = false then .error .UnsafePosition
          else .ok { vm1 with events := .BorrowEvt caller vaultId amount :: vm1.events }

/-- Function `VaultManager.withdraw`. -/
def withdraw (env : Env) (vm : VMState) (caller vaultId shares _receiver : Nat) :
    Except Err VMState :=
  if vm.paused then .error .Paused
  else if vm.vaultOwner vaultId = 0 then .error .VaultNotFound
  else if vm.vaultOwner vaultId ≠ caller then .error .NotVaultOwner
  else if (vm.vaults vaultId).active = false then .error .VaultInactive
  else if shares = 0 then .error .InvalidAmount
  else
    let vault := vm.vaults vaultId
    if vault.shares < shares then .error .NotEnoughShares
    else
      let assets := env.withdrawOf (vm.collaterals (vm.vaultCollateralType vaultId)).adapter shares
      let vm1 := { vm with vaults := setFn vm.vaults vaultId { vault with shares := vault.shares - shares } }
      match isVaultHealthy env vm1 vaultId with
      | .error e => .error e
      | .ok healthy =>
        if healthy = false then .error .UnsafePosition
        else .ok { vm1 with events := .WithdrawEvt caller vaultId shares assets :: vm1.events }

/-- Function `VaultManager._getCollateralValue`: `assets * price / 1e18` (checked
multiplication). -/
def getCollateralValue (env : Env) (shares adapter : Nat) : Except Err Nat :=
  let assets := env.valueOf adapter shares
  let priceWad := env.price (env.adapterAsset adapter)
  match umul assets priceWad with
  | .error e => .error e
  | .ok v => .ok (v / WAD)

/-- Function `VaultManager._processVaultLiquidation`.  The `qty > shares` clamp branch
of the source is kept although it is unreachable behind the
`vault.shares < qty` revert. -/
def processVaultLiquidation (env : Env) (vm : VMState) (vaultId qty0 : Nat) :
    Except Err VMState :=
  if vm.vaultOwner vaultId = 0 then .error .VaultNotFound
  else
    let vault := vm.vaults vaultId
    if vault.shares < qty0 then .error .NotEnoughShares
    else
      let config := vm.collaterals (vm.vaultCollateralType vaultId)
      let dq : Except Err (Nat × Nat) :=
        if 0 < vault.debt ∧ 0 < vault.shares then
          if qty0 ≤ vault.shares then
            match umul vault.debt qty0 with
            | .error e => .error e
            | .ok m => .ok (m / vault.shares, qty0)
          else .ok (vault.debt, vault.shares)
        else .ok (0, qty0)
      match dq with
      | .error e => .error e
      | .ok (debtToBurn, qty) =>
        match getCollateralValue env vault.shares config.adapter with
        | .error e => .error e
        | .ok totalCollateralValue =>
          let lv : Except Err Nat :=
            if 0 < vault.shares then
              match umul totalCollateralValue qty with
              | .error e => .error e
              | .ok m => .ok (m / vault.shares)
            else .ok 0
          match lv with
          | .error e => .error e
          | .ok liquidatedValue =>
            match usub vault.debt debtToBurn, usub vault.shares qty with
            | .error e, _ => .error e
            | .ok _, .error e => .error e
            | .ok newDebt, .ok newShares =>
              let vm1 := { vm with
                vaults := setFn vm.vaults vaultId { vault with debt := newDebt, shares := newShares } }
              let penalty :=
                if 0 < liquidatedValue then
                  if liquidatedValue ≤ U256MAX / 500 then liquidatedValue * 500 / MAX_BPS else 0
                else 0
              .ok { vm1 with
                events := .CollateralLiquidated vaultId (vm.vaultOwner vaultId) qty debtToBurn penalty
                  :: vm1.events }

/-- Function `VaultManager.onLiquidationSettle` (modifiers `whenNotPaused`,
`onlyLiquidationEngine`; processes each vault with a positive filled
quantity). -/
def onLiquidationSettle (env : Env) (vm : VMState) (caller : Nat)
    (vaultIds filledQty : List Nat) (clearingPrice : Nat) : Except Err VMState :=
  if vm.paused then .error .Paused
  else if caller ≠ vm.liquidationEngine then .error .NotLiquidationEngine
  else if vaultIds.length ≠ filledQty.length then .error .ArrayLengthMismatch
  else
    match (vaultIds.zip filledQty).foldlM
      (fun acc pair =>
        if 0 < pair.snd then processVaultLiquidation env acc pair.fst pair.snd
        else .ok acc) vm with
    | .error e => .error e
    | .ok vm1 =>
      .ok { vm1 with events := .LiquidationSettled vaultIds filledQty clearingPrice :: vm1.events }

-- =============================================================================
-- Settlement (LiquidationEngine.settle)
-- =============================================================================

/-- Combined state of the two contracts: settlement is the only operation in
which the engine mutates vault state, through `onLiquidationSettle`. -/
structure Sys where
  eng : EngineState
  vm : VMState

/-- Function `LiquidationEngine._executeSettlement`.  The source allocates
`filledQty = new uint256[](batch.vaultIds.length)` and never writes to it:
the allocation loop accumulates only the local `totalFilled`, so the callback
receives an all-zeros array. -/
def executeSettlement (cfg : EngCfg) (env : Env) (s : Sys) (batchId clearingPrice : Nat) :
    Except Err Sys :=
  let batch := s.eng.batches batchId
  let filledQty : List Nat := List.replicate batch.vaultIds.length 0
  let winners := batch.revealedBids.filter (fun b => b.valid && decide (clearingPrice ≤ b.price))
  match (winners.map Bid.qty).foldlM uadd 0 with
  | .error e => .error e
  | .ok totalDemandAtPrice =>
    if 0 < totalDemandAtPrice then
      match umul batch.totalQtyOffered WAD with
      | .error e => .error e
      | .ok num =>
        let fr := num / totalDemandAtPrice
        let fillRatio := if WAD < fr then WAD else fr
        match winners.foldlM
          (fun acc b =>
            (match umul b.qty fillRatio with
             | .error e => .error e
             | .ok m => uadd acc (m / WAD) : Except Err Nat)) 0 with
        | .error e => .error e
        | .ok _totalFilled =>
          match onLiquidationSettle env s.vm cfg.engineAddr batch.vaultIds filledQty clearingPrice with
          | .error e => .error e
          | .ok vm1 => .ok { s with vm := vm1 }
    else
      .ok s

/-- Function `LiquidationEngine._slashBonds`: despite its name the source only builds a
local list of valid revealers and emits a placeholder `BondSlashed(0, 0)`
event; no bond is zeroed or transferred. -/
def slashBonds (s : Sys) (batchId : Nat) : Sys :=
  { s with eng := { s.eng with events := .BondSlashed batchId 0 0 :: s.eng.events } }

/-- Function `LiquidationEngine.settle`: phase check, `settled = true` first, bond
"slashing", clearing price computation and recording, then settlement
execution when the clearing price is positive. -/
def settle (cfg : EngCfg) (env : Env) (s : Sys) (batchId t : Nat) : Except Err Sys :=
  if batchId = 0 ∨ s.eng.activeBatchId < batchId then .error .InvalidBatchId
  else
    let batch := s.eng.batches batchId
    match uadd batch.startRevealTs cfg.REVEAL_WINDOW with
    | .error e => .error e
    | .ok dl =>
      if t < dl then .error .CannotSettleYet
      else if batch.settled then .error .BatchAlreadySettled
      else
        let s1 : Sys :=
          { s with eng := { s.eng with
              batches := setFn s.eng.batches batchId { batch with settled := true } } }
        let s2 := slashBonds s1 batchId
        match calculateClearingPrice batch with
        | .error e => .error e
        | .ok cp =>
          let s3 : Sys :=
            { s2 with eng := { s2.eng with
                batches := setFn s2.eng.batches batchId
                  { batch with settled := true, clearingPrice := cp } } }
          match (if 0 < cp then executeSettlement cfg env s3 batchId cp else .ok s3) with
          | .error e => .error e
          | .ok s4 =>
            .ok { s4 with eng := { s4.eng with
              events := .BatchSettled batchId cp batch.totalQtyOffered :: s4.eng.events } }

-- =============================================================================
-- The clearing-price algorithm as the specification words it
-- =============================================================================

/-- Descending order on bid prices (the sort order of the spec's step 2). -/
def SortedDesc (l : List Bid) : Prop := l.Pairwise (fun a b => b.price ≤ a.price)

/-- Insertion into a descending-sorted list. -/
def insertDesc (b : Bid) : List Bid → List Bid
  | [] => [b]
  | a :: t => if a.price < b.price then b :: a :: t else a :: insertDesc b t

/-- A descending sort by price (a realization of the spec's "sort them by
price descending"). -/
def sortDesc (l : List Bid) : List Bid := l.foldr insertDesc []

/-- The clearing-price algorithm exactly as the spec words it: restrict to
bids with `valid == true`; sort by price descending; accumulate quantities in
that order and take the price of the first bid at which the cumulative
quantity reaches `totalQtyOffered`; if total valid demand is below
`totalQtyOffered`, the lowest valid bid's price; with no valid bids, 0. -/
def clearingPriceSpec (bids : List Bid) (totalQtyOffered : Nat) : Nat :=
  let valid := bids.filter (fun b => b.valid)
  if valid = [] then 0
  else
    match scanCross totalQtyOffered 0 (sortDesc valid) with
    | some p => p
    | none => (((sortDesc valid).getLast?).getD dummyBid).price

-- =============================================================================
-- Spec-side eligibility formula, execution wrappers, traces, ghost observations
-- =============================================================================

/-- The liquidation-eligibility condition exactly as the spec words it:
`debt > 0` and `collateralValueWad * MAX_BPS < debt * MCR_BPS` with
`collateralValueWad = adapter.valueOf(shares) * oraclePrice / WAD`. -/
def spec_isLiquidationEligible (assets priceWad debt : Nat) : Bool :=
  decide (0 < debt) && decide (assets * priceWad / WAD * MAX_BPS < debt * MCR_BPS)

/-- Run `settle`, keeping the prior state on a revert (Solidity rollback). -/
def execSettle (cfg : EngCfg) (env : Env) (s : Sys) (batchId t : Nat) : Sys :=
  match settle cfg env s batchId t with
  | .ok s2 => s2
  | .error _ => s

/-- One external entry point of the engine, with its caller and arguments. -/
inductive Op where
  | enqueueOp (caller vaultId : Nat)
  | startBatchOp
  | commitOp (caller value batchId commitment : Nat)
  | revealOp (caller batchId vaultId qty price salt : Nat)
  | settleOp (batchId : Nat)

/-- Dispatch one engine entry point at timestamp `t`. -/
def stepSys (cfg : EngCfg) (env : Env) (s : Sys) (op : Op) (t : Nat) : Except Err Sys :=
  match op with
  | .enqueueOp c v => (enqueue s.eng c v).map (fun e => { s with eng := e })
  | .startBatchOp => (startBatch cfg s.eng t).map (fun e => { s with eng := e })
  | .commitOp c val b com => (commitBid cfg s.eng c val b com t).map (fun e => { s with eng := e })
  | .revealOp c b v q p sa => (revealBid cfg s.eng c b v q p sa t).map (fun e => { s with eng := e })
  | .settleOp b => settle cfg env s b t

/-- Run one entry point, keeping the prior state on a revert. -/
def execSys (cfg : EngCfg) (env : Env) (s : Sys) (op : Op) (t : Nat) : Sys :=
  match stepSys cfg env s op t with
  | .ok s2 => s2
  | .error _ => s

/-- Run a list of timestamped entry-point calls. -/
def execTrace (cfg : EngCfg) (env : Env) : Sys → List (Op × Nat) → Sys
  | s, [] => s
  | s, (op, t) :: rest => execTrace cfg env (execSys cfg env s op t) rest

/-- The timestamps of a trace are nondecreasing and start at or after `t0`
(the chain's monotone clock). -/
def TimesMono : Nat → List (Op × Nat) → Prop
  | _, [] => True
  | t0, (_, t) :: rest => t0 ≤ t ∧ TimesMono t rest

/-- Total value refunded to bidder `a` for batch `b`, read off the
`BondRefunded` events (the only value transfers the engine performs). -/
def refundTotal (evs : List EngEvent) (b a : Nat) : Nat :=
  (evs.filterMap (fun e =>
    match e with
    | .BondRefunded b2 a2 amt => if b2 = b ∧ a2 = a then some amt else none
    | _ => none)).sum

/-- The bond attached to the most recent `commitBid` of bidder `a` in batch
`b` (events are prepended, so the first match is the most recent commit). -/
def lastCommitBond (evs : List EngEvent) (b a : Nat) : Nat :=
  (evs.findSome? (fun e =>
    match e with
    | .BidCommitted b2 a2 _ val => if b2 = b ∧ a2 = a then some val else none
    | _ => none)).getD 0

/-- Trace invariant for the bond ledger: refunds plus the outstanding bond
never exceed the last deposited bond; a refund implies the batch's reveal
phase has begun; batches beyond `activeBatchId` are untouched. -/
def BondInv (s : Sys) (tcur : Nat) : Prop :=
  ∀ b a,
    refundTotal s.eng.events b a + s.eng.bonds b a ≤ lastCommitBond s.eng.events b a ∧
    (0 < refundTotal s.eng.events b a → (s.eng.batches b).startRevealTs ≤ tcur) ∧
    (s.eng.activeBatchId < b →
      s.eng.bonds b a = 0 ∧ refundTotal s.eng.events b a = 0 ∧
        lastCommitBond s.eng.events b a = 0)

/-- The timestamp of the last call of a trace (`t0` for the empty trace). -/
def lastTime : Nat → List (Op × Nat) → Nat
  | t0, [] => t0
  | _, (_, t) :: rest => lastTime t rest

-- =============================================================================
-- Concrete scenario states (used by witnesses and concrete evaluations)
-- =============================================================================

/-- Engine parameters: 10 s commit window, 10 s reveal window, minimum bond 1,
minimum lot 1e18, batch size cap 10; the engine contract lives at address 77. -/
def cfgX : EngCfg :=
  { COMMIT_WINDOW := 10, REVEAL_WINDOW := 10, minCommitBond := 1,
    minLot := 10 ^ 18, maxBatchSize := 10, engineAddr := 77 }

/-- Collaborators: the adapter converts shares one-to-one to assets and the
oracle prices the asset at 1e18 (one WAD). -/
def envX : Env :=
  { valueOf := fun _ sh => sh, adapterAsset := fun _ => 1,
    price := fun _ => 10 ^ 18, withdrawOf := fun _ sh => sh }

/-- A revealed valid bid of bidder 5 for 0.5e18 units of vault 1 at price 100. -/
def bidX : Bid :=
  { bidder := 5, vaultId := 1, qty := 5 * 10 ^ 17, price := 100,
    saltHash := 0, revealed := true, valid := true }

/-- Batch 1: vault 1 offered (1e18 units), one valid revealed bid, reveal
window `[11, 21)`, not yet settled. -/
def batchX : Batch :=
  { startCommitTs := 1, startRevealTs := 11, vaultIds := [1],
    totalQtyOffered := 10 ^ 18, clearingPrice := 0, revealedBids := [bidX], settled := false }

/-- Engine storage holding exactly `batchX` as the active batch. -/
def engX : EngineState :=
  { activeBatchId := 1, vaultQueue := [], vaultQueued := fun _ => false,
    batches := fun b => if b = 1 then batchX else emptyBatch,
    commitments := fun _ _ => 0, bonds := fun _ _ => 0,
    liqRole := fun _ => false, events := [] }

/-- Vault 1: owner 9, collateral type 3 (enabled, 80% LTV, adapter 4),
1e18 collateral shares and 1000e18 debt, active; engine at address 77;
address 9 holds `RISK_ADMIN`. -/
def vmX : VMState :=
  { nextVaultId := 2,
    vaultOwner := fun v => if v = 1 then 9 else 0,
    vaultCollateralType := fun _ => 3,
    collaterals := fun k =>
      if k = 3 then { adapter := 4, ltvBps := 8000, enabled := true }
      else { adapter := 0, ltvBps := 0, enabled := false },
    vaults := fun v =>
      if v = 1 then { shares := 10 ^ 18, debt := 1000 * 10 ^ 18, active := true }
      else { shares := 0, debt := 0, active := false },
    paused := false, liquidationEngine := 77,
    riskAdmin := fun a => a == 9, events := [] }

/-- The combined system for the settlement scenario. -/
def sysX : Sys := { eng := engX, vm := vmX }

/-- The system state after settling batch 1 of `sysX` at time 21. -/
def sysX2 : Sys := execSettle cfgX envX sysX 1 21

/-- State `engX` with a never-revealed commitment (an arbitrary stored word 555, bond 5) from
bidder 42 in batch 1. -/
def engY : EngineState :=
  { engX with
    commitments := fun b a => if b = 1 ∧ a = 42 then 555 else 0,
    bonds := fun b a => if b = 1 ∧ a = 42 then 5 else 0 }

/-- The combined system for the unrevealed-commitment scenario. -/
def sysY : Sys := { eng := engY, vm := vmX }

/-- State `engX` with a commitment from bidder 42 in batch 1 whose stored word is
the hash of `(vaultId 1, qty 5, price 100, salt 7, bidder 42)`, bond 5. -/
def engZ : EngineState :=
  { engX with
    batches := fun b => if b = 1 then { batchX with revealedBids := [] } else emptyBatch,
    commitments := fun b a => if b = 1 ∧ a = 42 then keccakBid 1 5 100 7 42 else 0,
    bonds := fun b a => if b = 1 ∧ a = 42 then 5 else 0 }

/-- A four-call trace: the deployer (address 7) enqueues vault 1, starts a
batch, bidder 42 commits `hash(1, 5, 100, 7, bidder 42)` with bond 3 during
the commit window, and reveals those values in the reveal window. -/
def traceW : List (Op × Nat) :=
  [(.enqueueOp 7 1, 0), (.startBatchOp, 1),
   (.commitOp 42 3 1 (keccakBid 1 5 100 7 42), 5),
   (.revealOp 42 1 1 5 100 7, 12)]

/-- State `vmX` with collateral type 3 reconfigured to `ltvBps = 0` (still
enabled), as `setCollateral` permits. -/
def vmZ : VMState :=
  { vmX with
    collaterals := fun k =>
      if k = 3 then { adapter := 4, ltvBps := 0, enabled := true }
      else { adapter := 0, ltvBps := 0, enabled := false } }

-- =============================================================================
-- Sorting lemmas (bubble sort of the source, insertion sort of the spec)
-- =============================================================================

theorem bubblePass_perm (l : List Bid) : List.Perm (bubblePass l) l := by
  induction l using bubblePass.induct with
  | case1 => simp [bubblePass]
  | case2 a => simp [bubblePass]
  | case3 a b rest h ih =>
      simp only [bubblePass, if_pos h]
      exact (ih.cons b).trans (List.Perm.swap a b rest)
  | case4 a b rest h ih =>
      simp only [bubblePass, if_neg h]
      exact ih.cons a

theorem bubblePass_append_min (l : List Bid) (m : Bid)
    (hm : ∀ x ∈ l, m.price ≤ x.price) : bubblePass (l ++ [m]) = bubblePass l ++ [m] := by
  induction l using bubblePass.induct with
  | case1 => simp [bubblePass]
  | case2 a =>
      have hle : ¬ a.price < m.price := not_lt.mpr (hm a (by simp))
      simp [bubblePass, hle]
  | case3 a b rest h ih =>
      have hm2 : ∀ x ∈ a :: rest, m.price ≤ x.price := by
        intro x hx
        rcases List.mem_cons.mp hx with h1 | h1
        · exact h1 ▸ hm a (by simp)
        · exact hm x (by simp [h1])
      simp only [List.cons_append, bubblePass, if_pos h]
      rw [← List.cons_append, ih hm2]
  | case4 a b rest h ih =>
      have hm2 : ∀ x ∈ b :: rest, m.price ≤ x.price := by
        intro x hx
        rcases List.mem_cons.mp hx with h1 | h1
        · exact h1 ▸ hm b (by simp)
        · exact hm x (by simp [h1])
      simp only [List.cons_append, bubblePass, if_neg h]
      rw [← List.cons_append, ih hm2]

theorem bubblePass_last_min (l : List Bid) (hne : l ≠ []) :
    ∃ l2 m, bubblePass l = l2 ++ [m] ∧ ∀ x ∈ l, m.price ≤ x.price := by
  induction l using bubblePass.induct with
  | case1 => exact absurd rfl hne
  | case2 a => exact ⟨[], a, by simp [bubblePass], by simp⟩
  | case3 a b rest h ih =>
      obtain ⟨l2, m, he, hmin⟩ := ih (by simp)
      refine ⟨b :: l2, m, ?_, ?_⟩
      · simp [bubblePass, if_pos h, he]
      · intro x hx
        rcases List.mem_cons.mp hx with h1 | h1
        · exact h1 ▸ hmin a (by simp)
        · rcases List.mem_cons.mp h1 with h2 | h2
          · exact h2 ▸ le_of_lt (lt_of_le_of_lt (hmin a (by simp)) h)
          · exact hmin x (by simp [h2])
  | case4 a b rest h ih =>
      obtain ⟨l2, m, he, hmin⟩ := ih (by simp)
      refine ⟨a :: l2, m, ?_, ?_⟩
      · simp [bubblePass, if_neg h, he]
      · intro x hx
        rcases List.mem_cons.mp hx with h1 | h1
        · exact h1 ▸ le_trans (hmin b (by simp)) (not_lt.mp h)
        · exact hmin x h1

theorem bubbleIter_nil (k : Nat) : bubbleIter k [] = [] := by
  induction k with
  | zero => rfl
  | succ k ih =>
      have h0 : bubblePass [] = [] := by simp [bubblePass]
      show bubbleIter k (bubblePass []) = []
      rw [h0]
      exact ih

theorem bubbleIter_perm (k : Nat) (l : List Bid) : List.Perm (bubbleIter k l) l := by
  induction k generalizing l with
  | zero => exact List.Perm.refl l
  | succ k ih => exact (ih (bubblePass l)).trans (bubblePass_perm l)

theorem bubbleIter_append_min (k : Nat) (l : List Bid) (m : Bid)
    (hm : ∀ x ∈ l, m.price ≤ x.price) :
    bubbleIter k (l ++ [m]) = bubbleIter k l ++ [m] := by
  induction k generalizing l with
  | zero => rfl
  | succ k ih =>
      show bubbleIter k (bubblePass (l ++ [m])) = bubbleIter k (bubblePass l) ++ [m]
      rw [bubblePass_append_min l m hm]
      exact ih (bubblePass l) (fun x hx => hm x ((bubblePass_perm l).mem_iff.mp hx))

theorem bubbleIter_sorted (k : Nat) (l : List Bid) (hl : l.length ≤ k + 1) :
    SortedDesc (bubbleIter k l) := by
  induction k generalizing l with
  | zero =>
      match l, hl with
      | [], _ => exact List.Pairwise.nil
      | [a], _ => exact List.pairwise_singleton _ a
  | succ k ih =>
      rcases eq_or_ne l [] with hnil | hne
      · subst hnil
        rw [bubbleIter_nil]
        exact List.Pairwise.nil
      · obtain ⟨l2, m, he, hmin⟩ := bubblePass_last_min l hne
        have hm2 : ∀ x ∈ l2, m.price ≤ x.price := by
          intro x hx
          refine hmin x ?_
          have : x ∈ bubblePass l := he ▸ List.mem_append_left [m] hx
          exact (bubblePass_perm l).mem_iff.mp this
        have hlen : l2.length ≤ k + 1 := by
          have h1 : (bubblePass l).length = l.length := (bubblePass_perm l).length_eq
          have h2 : (l2 ++ [m]).length = l.length := by rw [← he, h1]
          simp at h2
          omega
        show SortedDesc (bubbleIter k (bubblePass l))
        rw [he, bubbleIter_append_min k l2 m hm2]
        rw [SortedDesc, List.pairwise_append]
        refine ⟨ih l2 hlen, List.pairwise_singleton _ m, ?_⟩
        intro x hx y hy
        rcases List.mem_singleton.mp hy with rfl
        exact hm2 x ((bubbleIter_perm k l2).mem_iff.mp hx)

theorem bubbleSort_perm (l : List Bid) : List.Perm (bubbleSort l) l := bubbleIter_perm _ l

theorem bubbleSort_sorted (l : List Bid) : SortedDesc (bubbleSort l) := by
  apply bubbleIter_sorted
  omega

theorem insertDesc_perm (b : Bid) (l : List Bid) : List.Perm (insertDesc b l) (b :: l) := by
  induction l with
  | nil => exact List.Perm.refl _
  | cons a t ih =>
      by_cases h : a.price < b.price
      · simp only [insertDesc, if_pos h]
        exact List.Perm.refl _
      · simp only [insertDesc, if_neg h]
        exact (ih.cons a).trans (List.Perm.swap b a t)

theorem sortDesc_perm (l : List Bid) : List.Perm (sortDesc l) l := by
  induction l with
  | nil => exact List.Perm.refl _
  | cons a t ih =>
      show List.Perm (insertDesc a (sortDesc t)) (a :: t)
      exact (insertDesc_perm a (sortDesc t)).trans (ih.cons a)

theorem insertDesc_sorted (b : Bid) (l : List Bid) (hs : SortedDesc l) :
    SortedDesc (insertDesc b l) := by
  induction l with
  | nil => simp [insertDesc, SortedDesc]
  | cons a t ih =>
      obtain ⟨ha, ht⟩ := List.pairwise_cons.mp hs
      by_cases h : a.price < b.price
      · simp only [insertDesc, if_pos h]
        refine List.Pairwise.cons ?_ hs
        intro x hx
        rcases List.mem_cons.mp hx with h1 | h1
        · exact h1 ▸ le_of_lt h
        · exact le_trans (ha x h1) (le_of_lt h)
      · simp only [insertDesc, if_neg h]
        refine List.Pairwise.cons ?_ (ih ht)
        intro x hx
        have hx2 : x ∈ b :: t := (insertDesc_perm b t).mem_iff.mp hx
        rcases List.mem_cons.mp hx2 with h1 | h1
        · exact h1 ▸ not_lt.mp h
        · exact ha x h1

theorem sortDesc_sorted (l : List Bid) : SortedDesc (sortDesc l) := by
  induction l with
  | nil => exact List.Pairwise.nil
  | cons a t ih => exact insertDesc_sorted a (sortDesc t) ih

-- =============================================================================
-- Order-free characterization of the cumulative-quantity walk
-- =============================================================================

/-- The prices occurring in a list of bids. -/
def prices (l : List Bid) : List Nat := l.map Bid.price

/-- Total quantity of a list of bids. -/
def qsum (l : List Bid) : Nat := (l.map Bid.qty).sum

/-- Total quantity of the bids priced at least `p`. -/
def sumGE (p : Nat) (l : List Bid) : Nat :=
  ((l.filter (fun b => decide (p ≤ b.price))).map Bid.qty).sum

theorem qsum_perm {l1 l2 : List Bid} (h : List.Perm l1 l2) : qsum l1 = qsum l2 :=
  (h.map Bid.qty).sum_eq

theorem sumGE_perm (p : Nat) {l1 l2 : List Bid} (h : List.Perm l1 l2) :
    sumGE p l1 = sumGE p l2 :=
  ((h.filter _).map Bid.qty).sum_eq

theorem sumGE_cons_of_le (p : Nat) (b : Bid) (t : List Bid) (h : p ≤ b.price) :
    sumGE p (b :: t) = b.qty + sumGE p t := by
  simp [sumGE, List.filter_cons, h]

theorem sumGE_cons_of_gt (p : Nat) (b : Bid) (t : List Bid) (h : b.price < p) :
    sumGE p (b :: t) = sumGE p t := by
  simp [sumGE, List.filter_cons, Nat.not_le.mpr h]

theorem sumGE_eq_zero_of_not_mem (c : Nat) (t : List Bid)
    (hub : ∀ x ∈ t, x.price ≤ c) (hnm : c ∉ prices t) : sumGE c t = 0 := by
  have hf : t.filter (fun b => decide (c ≤ b.price)) = [] := by
    apply List.filter_eq_nil_iff.mpr
    intro x hx
    simp only [decide_eq_true_eq, not_le]
    refine lt_of_le_of_ne (hub x hx) ?_
    intro he
    exact hnm (he ▸ List.mem_map_of_mem Bid.price hx)
  simp [sumGE, hf]

theorem prices_cons (b : Bid) (t : List Bid) : prices (b :: t) = b.price :: prices t := rfl

theorem qsum_cons (b : Bid) (t : List Bid) : qsum (b :: t) = b.qty + qsum t := by
  simp [qsum]

theorem le_of_mem_prices {c q : Nat} {t : List Bid} (hb : ∀ x ∈ t, x.price ≤ c)
    (hq : q ∈ prices t) : q ≤ c := by
  obtain ⟨x, hx, rfl⟩ := List.mem_map.mp hq
  exact hb x hx

/-- On a descending-sorted list, the cumulative walk returns `some p` exactly
when `p` is a price of the list whose at-least-`p` demand reaches `T` while
every strictly higher price's demand stays short of `T`.  The right-hand side
depends only on the multiset of bids. -/
theorem scanCross_eq_some_iff (T : Nat) :
    ∀ l : List Bid, SortedDesc l → ∀ acc p,
      (scanCross T acc l = some p ↔
        (p ∈ prices l ∧ T ≤ acc + sumGE p l ∧
          ∀ q ∈ prices l, p < q → acc + sumGE q l < T)) := by
  intro l
  induction l with
  | nil =>
      intro _ acc p
      simp [scanCross, prices]
  | cons b t ih =>
      intro hs acc p
      obtain ⟨hb, ht⟩ := List.pairwise_cons.mp hs
      by_cases h1 : T ≤ acc + b.qty
      · simp only [scanCross, if_pos h1]
        constructor
        · intro he
          obtain rfl : b.price = p := Option.some.inj he
          refine ⟨by rw [prices_cons]; exact List.mem_cons_self _ _, ?_, ?_⟩
          · rw [sumGE_cons_of_le _ _ _ (le_refl b.price)]
            omega
          · intro q hq hlt
            rw [prices_cons] at hq
            rcases List.mem_cons.mp hq with rfl | hq2
            · exact absurd hlt (lt_irrefl _)
            · exact absurd (le_of_mem_prices hb hq2) (not_le.mpr hlt)
        · rintro ⟨hm, hT, hall⟩
          rw [prices_cons] at hm
          rcases List.mem_cons.mp hm with rfl | hm2
          · rfl
          · have hple : p ≤ b.price := le_of_mem_prices hb hm2
            rcases eq_or_lt_of_le hple with he | hlt
            · rw [he]
            · exfalso
              have hc := hall b.price (by rw [prices_cons]; exact List.mem_cons_self _ _) hlt
              rw [sumGE_cons_of_le _ _ _ (le_refl b.price)] at hc
              omega
      · simp only [scanCross, if_neg h1]
        rw [ih ht (acc + b.qty) p]
        constructor
        · rintro ⟨hm, hT, hall⟩
          have hple : p ≤ b.price := le_of_mem_prices hb hm
          refine ⟨by rw [prices_cons]; exact List.mem_cons_of_mem _ hm, ?_, ?_⟩
          · rw [sumGE_cons_of_le _ _ _ hple]
            omega
          · intro q hq hlt
            rw [prices_cons] at hq
            rcases List.mem_cons.mp hq with rfl | hq2
            · rw [sumGE_cons_of_le _ _ _ (le_refl b.price)]
              by_cases hbt : b.price ∈ prices t
              · have hc := hall b.price hbt hlt
                omega
              · rw [sumGE_eq_zero_of_not_mem b.price t hb hbt]
                omega
            · have hqle : q ≤ b.price := le_of_mem_prices hb hq2
              have hc := hall q hq2 hlt
              rw [sumGE_cons_of_le _ _ _ hqle]
              omega
        · rintro ⟨hm, hT, hall⟩
          rw [prices_cons] at hm
          have hm2 : p ∈ prices t := by
            rcases List.mem_cons.mp hm with rfl | hm2
            · by_contra hbt
              rw [sumGE_cons_of_le _ _ _ (le_refl b.price)] at hT
              rw [sumGE_eq_zero_of_not_mem b.price t hb hbt] at hT
              omega
            · exact hm2
          have hple : p ≤ b.price := le_of_mem_prices hb hm2
          refine ⟨hm2, ?_, ?_⟩
          · rw [sumGE_cons_of_le _ _ _ hple] at hT
            omega
          · intro q hq2 hlt
            have hqle : q ≤ b.price := le_of_mem_prices hb hq2
            have hc := hall q (by rw [prices_cons]; exact List.mem_cons_of_mem _ hq2) hlt
            rw [sumGE_cons_of_le _ _ _ hqle] at hc
            omega

theorem scanCross_none_of_lt (T : Nat) :
    ∀ (l : List Bid) (acc : Nat), acc + qsum l < T → scanCross T acc l = none := by
  intro l
  induction l with
  | nil => intro acc _; rfl
  | cons b t ih =>
      intro acc h
      rw [qsum_cons] at h
      have h1 : ¬ T ≤ acc + b.qty := by omega
      simp only [scanCross, if_neg h1]
      apply ih
      omega

theorem lt_of_scanCross_none (T : Nat) :
    ∀ (l : List Bid) (acc : Nat), l ≠ [] → scanCross T acc l = none → acc + qsum l < T := by
  intro l
  induction l with
  | nil => intro acc h _; exact absurd rfl h
  | cons b t ih =>
      intro acc _ hn
      by_cases h1 : T ≤ acc + b.qty
      · simp [scanCross, if_pos h1] at hn
      · simp only [scanCross, if_neg h1] at hn
        rcases eq_or_ne t [] with rfl | hne
        · rw [qsum_cons]
          simp [qsum]
          omega
        · have hc := ih (acc + b.qty) hne hn
          rw [qsum_cons]
          omega

theorem scanCross_some_transfer (T acc p : Nat) {l1 l2 : List Bid} (hp : List.Perm l1 l2)
    (h1 : SortedDesc l1) (h2 : SortedDesc l2) (he : scanCross T acc l1 = some p) :
    scanCross T acc l2 = some p := by
  have hpr : List.Perm (prices l1) (prices l2) := hp.map Bid.price
  obtain ⟨hm, hT, hall⟩ := (scanCross_eq_some_iff T l1 h1 acc p).mp he
  refine (scanCross_eq_some_iff T l2 h2 acc p).mpr ⟨hpr.mem_iff.mp hm, ?_, ?_⟩
  · rw [← sumGE_perm p hp]
    exact hT
  · intro q hq hlt
    rw [← sumGE_perm q hp]
    exact hall q (hpr.mem_iff.mpr hq) hlt

/-- Any two descending-sorted permutations of the same bids give the same
cumulative-walk result. -/
theorem scanCross_sorted_perm_eq (T : Nat) {l1 l2 : List Bid} (hp : List.Perm l1 l2)
    (h1 : SortedDesc l1) (h2 : SortedDesc l2) (acc : Nat) :
    scanCross T acc l1 = scanCross T acc l2 := by
  cases e1 : scanCross T acc l1 with
  | some p => exact (scanCross_some_transfer T acc p hp h1 h2 e1).symm
  | none =>
      cases e2 : scanCross T acc l2 with
      | none => rfl
      | some p =>
          have hc := scanCross_some_transfer T acc p hp.symm h2 h1 e2
          rw [e1] at hc
          cases hc

theorem getLastD_mem : ∀ l : List Bid, l ≠ [] → ((l.getLast?).getD dummyBid) ∈ l := by
  intro l
  induction l with
  | nil => intro h; exact absurd rfl h
  | cons a t ih =>
      intro _
      cases t with
      | nil => simp
      | cons c u =>
          rw [List.getLast?_cons_cons]
          exact List.mem_cons_of_mem a (ih (by simp))

theorem sorted_getLastD_min : ∀ l : List Bid, SortedDesc l → ∀ x ∈ l,
    ((l.getLast?).getD dummyBid).price ≤ x.price := by
  intro l
  induction l with
  | nil => intro _ x hx; cases hx
  | cons a t ih =>
      intro hs x hx
      obtain ⟨ha, ht⟩ := List.pairwise_cons.mp hs
      cases t with
      | nil =>
          rcases List.mem_singleton.mp hx with rfl
          simp
      | cons c u =>
          rw [List.getLast?_cons_cons]
          rcases List.mem_cons.mp hx with rfl | hx2
          · exact ha _ (getLastD_mem (c :: u) (by simp))
          · exact ih ht x hx2

theorem lastPrice_eq_of_sorted_perm {l1 l2 : List Bid} (hp : List.Perm l1 l2)
    (h1 : SortedDesc l1) (h2 : SortedDesc l2) (hne : l1 ≠ []) :
    ((l1.getLast?).getD dummyBid).price = ((l2.getLast?).getD dummyBid).price := by
  have hne2 : l2 ≠ [] := by
    intro h
    exact hne (List.Perm.eq_nil (h ▸ hp))
  apply le_antisymm
  · exact sorted_getLastD_min l1 h1 _ (hp.mem_iff.mpr (getLastD_mem l2 hne2))
  · exact sorted_getLastD_min l2 h2 _ (hp.mem_iff.mp (getLastD_mem l1 hne))

theorem scanCrossChecked_ok (T : Nat) :
    ∀ (l : List Bid) (acc : Nat) (r : Option Nat),
      scanCrossChecked T acc l = .ok r → scanCross T acc l = r := by
  intro l
  induction l with
  | nil =>
      intro acc r h
      simpa [scanCrossChecked, scanCross] using h
  | cons b t ih =>
      intro acc r h
      simp only [scanCrossChecked] at h
      cases hu : uadd acc b.qty with
      | error e =>
          rw [hu] at h
          cases h
      | ok acc2 =>
          rw [hu] at h
          dsimp only at h
          have hacc : acc2 = acc + b.qty := by
            unfold uadd at hu
            split at hu
            · exact (Except.ok.inj hu).symm
            · cases hu
          subst hacc
          by_cases hT : T ≤ acc + b.qty
          · rw [if_pos hT] at h
            simp only [scanCross, if_pos hT]
            exact Except.ok.inj h
          · rw [if_neg hT] at h
            simp only [scanCross, if_neg hT]
            exact ih _ r h

/-- Whenever the source's clearing-price computation completes without an
arithmetic panic, its result is exactly the spec's algorithm. -/
theorem calculateClearingPrice_spec (batch : Batch) (p : Nat)
    (h : calculateClearingPrice batch = .ok p) :
    p = clearingPriceSpec batch.revealedBids batch.totalQtyOffered := by
  unfold calculateClearingPrice at h
  unfold clearingPriceSpec
  by_cases h0 : batch.revealedBids.length = 0
  · rw [if_pos h0] at h
    have hnil : batch.revealedBids = [] := List.length_eq_zero.mp h0
    rw [hnil]
    simp only [List.filter_nil, if_pos rfl]
    exact (Except.ok.inj h).symm
  · rw [if_neg h0] at h
    by_cases h1 : (batch.revealedBids.filter (fun b => b.valid)).length = 0
    · rw [if_pos h1] at h
      have hv : batch.revealedBids.filter (fun b => b.valid) = [] := List.length_eq_zero.mp h1
      simp only [hv, if_pos rfl]
      exact (Except.ok.inj h).symm
    · rw [if_neg h1] at h
      dsimp only at h
      have hvne : batch.revealedBids.filter (fun b => b.valid) ≠ [] := by
        intro hc
        exact h1 (by rw [hc]; rfl)
      simp only [if_neg hvne]
      set valid := batch.revealedBids.filter (fun b => b.valid) with hvdef
      have hperm : List.Perm (bubbleSort valid) (sortDesc valid) :=
        (bubbleSort_perm valid).trans (sortDesc_perm valid).symm
      have hbne : bubbleSort valid ≠ [] := by
        intro hc
        exact hvne (List.Perm.eq_nil (hc ▸ (bubbleSort_perm valid).symm))
      cases esc : scanCrossChecked batch.totalQtyOffered 0 (bubbleSort valid) with
      | error e =>
          rw [esc] at h
          cases h
      | ok r =>
          rw [esc] at h
          have hpure := scanCrossChecked_ok batch.totalQtyOffered (bubbleSort valid) 0 r esc
          have htrans := scanCross_sorted_perm_eq batch.totalQtyOffered hperm
            (bubbleSort_sorted valid) (sortDesc_sorted valid) 0
          cases r with
          | some q =>
              rw [htrans] at hpure
              rw [hpure]
              exact (Except.ok.inj h).symm
          | none =>
              rw [htrans] at hpure
              rw [hpure]
              rw [← (Except.ok.inj h)]
              exact lastPrice_eq_of_sorted_perm hperm
                (bubbleSort_sorted valid) (sortDesc_sorted valid) hbne

theorem setFn_self {α : Type} (f : Nat → α) (k : Nat) (v : α) : setFn f k v k = v := by
  simp [setFn]

/-- Lemma: `_executeSettlement` never mutates the engine's own storage: it only calls
into the `VaultManager`. -/
theorem executeSettlement_eng (cfg : EngCfg) (env : Env) (s : Sys) (batchId cp : Nat)
    (s4 : Sys) (h : executeSettlement cfg env s batchId cp = .ok s4) : s4.eng = s.eng := by
  unfold executeSettlement at h
  dsimp only at h
  split at h
  · cases h
  · split at h
    · split at h
      · cases h
      · split at h
        · cases h
        · split at h
          · cases h
          · obtain rfl := Except.ok.inj h
            rfl
    · obtain rfl := Except.ok.inj h
      rfl

/-- A successful `settle` records exactly the clearing price computed by
`_calculateClearingPrice` on the pre-settlement batch. -/
theorem settle_ok_clearing (cfg : EngCfg) (env : Env) (s : Sys) (batchId t : Nat) (s2 : Sys)
    (h : settle cfg env s batchId t = .ok s2) :
    ∃ cp, calculateClearingPrice (s.eng.batches batchId) = .ok cp ∧
      (s2.eng.batches batchId).clearingPrice = cp := by
  unfold settle at h
  dsimp only at h
  split at h
  · cases h
  · split at h
    · cases h
    · split at h
      · cases h
      · split at h
        · cases h
        · split at h
          · cases h
          · rename_i cp hcp
            split at h
            · cases h
            · rename_i s4 hif
              obtain rfl := Except.ok.inj h
              refine ⟨cp, hcp, ?_⟩
              split at hif
              · have heng := executeSettlement_eng _ _ _ _ _ _ hif
                show (s4.eng.batches batchId).clearingPrice = cp
                rw [heng]
                dsimp only
                rw [setFn_self]
              · obtain rfl := Except.ok.inj hif
                dsimp only
                rw [setFn_self]

-- =============================================================================
-- Claim theorems
-- =============================================================================

/-- C1 (code_bug evidence): for the vault of `vmX` (collateral type enabled,
vault active, adapter value 1e18 assets at oracle price 1e18, debt 1000e18)
the spec's formula `collateralValueWad * MAX_BPS < debt * MCR_BPS` with
`collateralValueWad = valueOf(shares) * price / WAD` makes the vault
liquidation-eligible, yet the code's `isLiquidationEligible` returns `false`:
`_getVaultHealth` computes `collateralValueWad = assets * priceWad` without
dividing by `WAD`, inflating the collateral value by a factor of 1e18. -/
theorem C1_eligibility_wad_mismatch :
    isLiquidationEligible envX vmX 1 = .ok false ∧
      spec_isLiquidationEligible (envX.valueOf 4 ((vmX.vaults 1).shares))
        (envX.price (envX.adapterAsset 4)) ((vmX.vaults 1).debt) = true := by
  constructor
  · rfl
  · rfl

/-- C2 (code_bug evidence): settling batch 1 of `sysX` (one valid bid for
0.5e18 units at price 100, supply 1e18) succeeds and records clearing price
100, but vault 1 keeps its full debt (1000e18) and shares (1e18): the
`filledQty` array passed to `onLiquidationSettle` is never written, so no
debt is burned — the spec's scenario expects the debt reduced by 500e18. -/
theorem C2_settlement_burns_no_debt :
    (settle cfgX envX sysX 1 21).map
      (fun s2 => ((s2.eng.batches 1).clearingPrice,
        (s2.vm.vaults 1).debt, (s2.vm.vaults 1).shares)) =
      .ok (100, 1000 * 10 ^ 18, 10 ^ 18) := by
  rfl

/-- C3: whenever `settle` succeeds, the clearing price recorded for the batch
equals the spec's algorithm applied to the batch's revealed bids: filter to
valid bids, sort by price descending, accumulate quantities and take the
price of the first bid at which the cumulative quantity reaches
`totalQtyOffered`; the lowest valid bid's price if total demand falls short;
0 with no valid bids. -/
theorem C3_settled_clearing_price (cfg : EngCfg) (env : Env) (s : Sys) (batchId t : Nat)
    (s2 : Sys) (h : settle cfg env s batchId t = .ok s2) :
    (s2.eng.batches batchId).clearingPrice =
      clearingPriceSpec (s.eng.batches batchId).revealedBids
        (s.eng.batches batchId).totalQtyOffered := by
  obtain ⟨cp, hcp, hrec⟩ := settle_ok_clearing cfg env s batchId t s2 h
  rw [hrec]
  exact calculateClearingPrice_spec _ cp hcp

/-- C3 witness: the settlement of `sysX` at time 21. -/
theorem C3_settled_clearing_price_witness :
    (sysX2.eng.batches 1).clearingPrice =
      clearingPriceSpec (sysX.eng.batches 1).revealedBids
        (sysX.eng.batches 1).totalQtyOffered :=
  C3_settled_clearing_price cfgX envX sysX 1 21 sysX2 (by rfl)

/-- C4 (code_bug evidence): bidder 42 holds a matching commitment in batch 1
of `engZ`; a first `revealBid` inside the reveal window succeeds, and a
second `revealBid` by the same bidder in the same window also succeeds —
no `AlreadyRevealed` revert — and appends a second bid record. -/
theorem C4_second_reveal_not_rejected :
    ((revealBid cfgX engZ 42 1 1 5 100 7 12).bind
      (fun s1 => revealBid cfgX s1 42 1 1 5 100 7 13)).map
      (fun s2 => (s2.batches 1).revealedBids.length) = .ok 2 := by
  rfl

/-- C5 (code_bug evidence): in `sysY` bidder 42 committed with bond 5 and
never revealed; `settle` succeeds, yet the recorded bond is still 5 —
`_slashBonds` only emits a placeholder event and forfeits nothing. -/
theorem C5_slash_bonds_is_a_noop :
    (settle cfgX envX sysY 1 21).map (fun s2 => s2.eng.bonds 1 42) = .ok 5 := by
  rfl

/-- C8 counterexample: called by the liquidation engine with a filled
quantity (2e18) exceeding vault 1's shares (1e18), `onLiquidationSettle`
aborts with `NotEnoughShares` — it does not clamp and continue as the claim
states. -/
theorem C8_counterexample_excess_fill_aborts :
    onLiquidationSettle envX vmX 77 [1] [2 * 10 ^ 18] 100 = .error .NotEnoughShares := by
  rfl

/-- Shape of a successful `settle`: the phase data that a second `settle`
call re-reads is exactly determined — `activeBatchId` and `startRevealTs`
are unchanged and the batch is now marked settled. -/
theorem settle_ok_state (cfg : EngCfg) (env : Env) (s : Sys) (batchId t : Nat) (s2 : Sys)
    (h : settle cfg env s batchId t = .ok s2) :
    s2.eng.activeBatchId = s.eng.activeBatchId ∧
    (s2.eng.batches batchId).settled = true ∧
    (s2.eng.batches batchId).startRevealTs = (s.eng.batches batchId).startRevealTs ∧
    ¬(batchId = 0 ∨ s.eng.activeBatchId < batchId) ∧
    ∃ dl, uadd (s.eng.batches batchId).startRevealTs cfg.REVEAL_WINDOW = .ok dl ∧ ¬ t < dl := by
  unfold settle at h
  dsimp only at h
  split at h
  · cases h
  · rename_i hid
    split at h
    · cases h
    · rename_i dl hdl
      split at h
      · cases h
      · rename_i htl
        split at h
        · cases h
        · split at h
          · cases h
          · split at h
            · cases h
            · rename_i s4 hif
              obtain rfl := Except.ok.inj h
              have hkey : s4.eng.activeBatchId = s.eng.activeBatchId ∧
                  (s4.eng.batches batchId).settled = true ∧
                  (s4.eng.batches batchId).startRevealTs =
                    (s.eng.batches batchId).startRevealTs := by
                split at hif
                · have he := executeSettlement_eng _ _ _ _ _ _ hif
                  rw [he]
                  refine ⟨rfl, ?_, ?_⟩
                  · dsimp only
                    rw [setFn_self]
                  · dsimp only
                    rw [setFn_self]
                · obtain rfl := Except.ok.inj hif
                  refine ⟨rfl, ?_, ?_⟩
                  · dsimp only
                    rw [setFn_self]
                  · dsimp only
                    rw [setFn_self]
              exact ⟨hkey.1, hkey.2.1, hkey.2.2, hid, dl, hdl, htl⟩

/-- C7: once `settle(batchId)` has succeeded, any later `settle(batchId)`
call (at any time not before the first) fails with `BatchAlreadySettled`,
and — reverts leaving no state change — re-running it keeps the
post-settlement state exactly as it was. -/
theorem C7_second_settle_rejected (cfg : EngCfg) (env : Env) (s : Sys) (batchId t t2 : Nat)
    (s2 : Sys) (hmono : t ≤ t2) (h : settle cfg env s batchId t = .ok s2) :
    settle cfg env s2 batchId t2 = .error .BatchAlreadySettled ∧
      execSettle cfg env s2 batchId t2 = s2 := by
  obtain ⟨hact, hset, hsrv, hid, dl, hdl, htl⟩ := settle_ok_state cfg env s batchId t s2 h
  have herr : settle cfg env s2 batchId t2 = .error .BatchAlreadySettled := by
    unfold settle
    rw [if_neg (by rw [hact]; exact hid)]
    dsimp only
    rw [hsrv, hdl]
    dsimp only
    rw [if_neg (by omega : ¬ t2 < dl)]
    rw [if_pos hset]
  refine ⟨herr, ?_⟩
  unfold execSettle
  rw [herr]

/-- C8 amended: if the liquidation engine hands `onLiquidationSettle` a
filled quantity exceeding the vault's shares, the whole call reverts with
`NotEnoughShares` (no underflow; no vault is mutated, since a revert rolls
everything back) — the clamp branch in `_processVaultLiquidation` is
unreachable behind this check. -/
theorem C8_excess_fill_reverts (env : Env) (vm : VMState) (v q cp : Nat)
    (hp : vm.paused = false)
    (ho : vm.vaultOwner v ≠ 0)
    (hq : (vm.vaults v).shares < q) :
    onLiquidationSettle env vm vm.liquidationEngine [v] [q] cp = .error .NotEnoughShares := by
  have hproc : processVaultLiquidation env vm v q = .error .NotEnoughShares := by
    unfold processVaultLiquidation
    rw [if_neg ho]
    dsimp only
    rw [if_pos hq]
  have h0 : 0 < q := by omega
  unfold onLiquidationSettle
  rw [if_neg (by rw [hp]; exact Bool.false_ne_true)]
  rw [if_neg (by intro hc; exact hc rfl)]
  rw [if_neg (by intro hc; exact hc rfl)]
  have hfold : ([v].zip [q]).foldlM
      (fun acc pair =>
        if 0 < pair.snd then processVaultLiquidation env acc pair.fst pair.snd
        else .ok acc) vm = .error .NotEnoughShares := by
    show (if 0 < q then processVaultLiquidation env vm v q else .ok vm).bind _ =
      .error .NotEnoughShares
    rw [if_pos h0, hproc]
    rfl
  rw [hfold]

/-- C8 amended, witness: vault 1 of `vmX` holds 1e18 shares; a filled
quantity of 2e18 makes the callback revert with `NotEnoughShares`. -/
theorem C8_excess_fill_reverts_witness :
    onLiquidationSettle envX vmX vmX.liquidationEngine [1] [2 * 10 ^ 18] 100 =
      .error .NotEnoughShares :=
  C8_excess_fill_reverts envX vmX 1 (2 * 10 ^ 18) 100 (by rfl) (by decide) (by decide)

/-- C7 witness: settling batch 1 of `sysX` at time 21 succeeds; a second
settle at time 22 reverts with `BatchAlreadySettled` and changes nothing. -/
theorem C7_second_settle_rejected_witness :
    settle cfgX envX sysX2 1 22 = .error .BatchAlreadySettled ∧
      execSettle cfgX envX sysX2 1 22 = sysX2 :=
  C7_second_settle_rejected cfgX envX sysX 1 21 22 sysX2 (by decide) (by rfl)

/-- The idealized commitment hash is injective. -/
theorem keccakBid_inj {v q p sa a v0 q0 p0 s0 a0 : Nat}
    (h : keccakBid v q p sa a = keccakBid v0 q0 p0 s0 a0) :
    v = v0 ∧ q = q0 ∧ p = p0 ∧ sa = s0 ∧ a = a0 := by
  unfold keccakBid at h
  obtain ⟨h2, h3⟩ := Nat.pair_eq_pair.mp (Nat.add_right_cancel h)
  obtain ⟨h4, h5⟩ := Nat.pair_eq_pair.mp h3
  obtain ⟨h6, h7⟩ := Nat.pair_eq_pair.mp h5
  obtain ⟨h8, h9⟩ := Nat.pair_eq_pair.mp h7
  exact ⟨h2, h4, h6, h8, h9⟩

/-- The idealized commitment hash is never the zero word. -/
theorem keccakBid_ne_zero (v q p sa a : Nat) : keccakBid v q p sa a ≠ 0 :=
  Nat.succ_ne_zero _

/-- Boolean comparison of two commitment hashes decides equality of all the
committed parameters and the bidder identity. -/
theorem keccakBid_beq (v q p sa a v0 q0 p0 s0 a0 : Nat) :
    (keccakBid v q p sa a == keccakBid v0 q0 p0 s0 a0) =
      decide (v = v0 ∧ q = q0 ∧ p = p0 ∧ sa = s0 ∧ a = a0) := by
  by_cases h : v = v0 ∧ q = q0 ∧ p = p0 ∧ sa = s0 ∧ a = a0
  · obtain ⟨rfl, rfl, rfl, rfl, rfl⟩ := h
    simp
  · have hne : keccakBid v q p sa a ≠ keccakBid v0 q0 p0 s0 a0 := fun hh => h (keccakBid_inj hh)
    simp [hne, h]

/-- C6: when the stored commitment for `(batchId, caller)` is the hash of
`(v0, q0, pr0, s0)` committed by `a0`, a reveal inside the reveal window
always succeeds and appends one bid whose `valid` flag is true exactly when
every revealed parameter and the caller identity match the committed ones;
on a valid reveal the stored bond is zeroed and refunded to the caller
(`BondRefunded`), on any mismatch the bid is recorded invalid and the bond
stays. -/
theorem C6_reveal_commitment_roundtrip (cfg : EngCfg) (s : EngineState)
    (caller batchId v q pr salt t v0 q0 pr0 s0 a0 : Nat)
    (hb0 : batchId ≠ 0) (hble : batchId ≤ s.activeBatchId)
    (hw1 : (s.batches batchId).startRevealTs ≤ t)
    (hdl : (s.batches batchId).startRevealTs + cfg.REVEAL_WINDOW ≤ U256MAX)
    (hw2 : t < (s.batches batchId).startRevealTs + cfg.REVEAL_WINDOW)
    (hns : (s.batches batchId).settled = false)
    (hc : s.commitments batchId caller = keccakBid v0 q0 pr0 s0 a0) :
    ∃ s2, revealBid cfg s caller batchId v q pr salt t = .ok s2 ∧
      (s2.batches batchId).revealedBids =
        (s.batches batchId).revealedBids ++
          [{ bidder := caller, vaultId := v, qty := q, price := pr, saltHash := salt,
             revealed := true,
             valid := decide (v = v0 ∧ q = q0 ∧ pr = pr0 ∧ salt = s0 ∧ caller = a0) }] ∧
      ((v = v0 ∧ q = q0 ∧ pr = pr0 ∧ salt = s0 ∧ caller = a0) →
        s2.bonds batchId caller = 0 ∧
        s2.events = .BidRevealed batchId caller v q pr true ::
          .BondRefunded batchId caller (s.bonds batchId caller) :: s.events) ∧
      (¬(v = v0 ∧ q = q0 ∧ pr = pr0 ∧ salt = s0 ∧ caller = a0) →
        s2.bonds batchId caller = s.bonds batchId caller ∧
        s2.events = .BidRevealed batchId caller v q pr false :: s.events) := by
  unfold revealBid
  rw [if_neg (by push_neg; exact ⟨hb0, hble⟩)]
  dsimp only
  rw [if_neg (not_lt.mpr hw1)]
  unfold uadd
  rw [if_pos hdl]
  dsimp only
  rw [if_neg (not_le.mpr hw2)]
  rw [if_neg (by rw [hns]; exact Bool.false_ne_true)]
  rw [if_neg (by rw [hc]; exact keccakBid_ne_zero v0 q0 pr0 s0 a0)]
  rw [hc, keccakBid_beq]
  by_cases hP : v = v0 ∧ q = q0 ∧ pr = pr0 ∧ salt = s0 ∧ caller = a0
  · rw [if_pos (by simp [hP])]
    refine ⟨_, rfl, ?_, ?_, ?_⟩
    · dsimp only
      rw [setFn_self]
    · intro _
      refine ⟨?_, ?_⟩
      · dsimp only
        simp [setFn2]
      · dsimp only
        simp [hP]
    · intro hn
      exact absurd hP hn
  · rw [if_neg (by simp [hP])]
    refine ⟨_, rfl, ?_, ?_, ?_⟩
    · dsimp only
      rw [setFn_self]
    · intro hy
      exact absurd hy hP
    · intro _
      refine ⟨rfl, ?_⟩
      dsimp only
      simp [hP]

/-- C6 witness: bidder 42 committed `hash(1, 5, 100, 7, bidder 42)` in batch
1 of `engZ` and reveals exactly those values at time 12. -/
theorem C6_reveal_commitment_roundtrip_witness :
    ∃ s2, revealBid cfgX engZ 42 1 1 5 100 7 12 = .ok s2 ∧
      (s2.batches 1).revealedBids =
        (engZ.batches 1).revealedBids ++
          [{ bidder := 42, vaultId := 1, qty := 5, price := 100, saltHash := 7,
             revealed := true, valid := decide (1 = 1 ∧ 5 = 5 ∧ 100 = 100 ∧ 7 = 7 ∧ 42 = 42) }] ∧
      ((1 = 1 ∧ 5 = 5 ∧ 100 = 100 ∧ 7 = 7 ∧ 42 = 42) →
        s2.bonds 1 42 = 0 ∧
        s2.events = .BidRevealed 1 42 1 5 100 true ::
          .BondRefunded 1 42 (engZ.bonds 1 42) :: engZ.events) ∧
      (¬(1 = 1 ∧ 5 = 5 ∧ 100 = 100 ∧ 7 = 7 ∧ 42 = 42) →
        s2.bonds 1 42 = engZ.bonds 1 42 ∧
        s2.events = .BidRevealed 1 42 1 5 100 false :: engZ.events) :=
  C6_reveal_commitment_roundtrip cfgX engZ 42 1 1 5 100 7 12 1 5 100 7 42
    (by decide) (by decide) (by decide) (by decide) (by decide) (by decide) (by decide)

/-- Health evaluation of an enabled, active vault with positive debt,
positive collateral value, and `ltvBps = 0` panics with division by zero in
the overflow guard `type(uint256).max / ltvBps`. -/
theorem getVaultHealth_zero_ltv (env : Env) (vm : VMState) (v ad : Nat)
    (hcfg : vm.collaterals (vm.vaultCollateralType v) =
      { adapter := ad, ltvBps := 0, enabled := true })
    (hact : (vm.vaults v).active = true)
    (hdebt : 0 < (vm.vaults v).debt)
    (hval : 0 < env.valueOf ad (vm.vaults v).shares * env.price (env.adapterAsset ad))
    (hov : env.price (env.adapterAsset ad) ≤ U256MAX / env.valueOf ad (vm.vaults v).shares) :
    getVaultHealth env vm v = .error .DivByZero := by
  unfold getVaultHealth
  rw [hcfg]
  dsimp only
  rw [if_neg (by simp [hact])]
  rw [if_neg (by push_neg; intro _; exact hov)]
  rw [if_neg (by omega)]
  rw [if_neg (by omega)]
  unfold udiv
  rw [if_pos rfl]

/-- C10: with an enabled collateral type configured at `ltvBps = 0` (which
`setCollateral` accepts, rejecting only values above 10000), every health
evaluation of an active vault with positive debt and nonzero collateral
value aborts with a division-by-zero panic instead of returning
`healthy == false`: `vaultHealth`, the health check inside `borrow`, and the
post-debit health check inside `withdraw` all fail with the panic. -/
theorem C10_zero_ltv_health_panics (env : Env) (vm : VMState)
    (v u ad amt w recv caller key : Nat)
    (hcfg : vm.collaterals (vm.vaultCollateralType v) =
      { adapter := ad, ltvBps := 0, enabled := true })
    (hact : (vm.vaults v).active = true)
    (hdebt : 0 < (vm.vaults v).debt)
    (howner : vm.vaultOwner v = u) (hu : u ≠ 0)
    (hpause : vm.paused = false)
    (hval : 0 < env.valueOf ad (vm.vaults v).shares * env.price (env.adapterAsset ad))
    (hov : env.price (env.adapterAsset ad) ≤ U256MAX / env.valueOf ad (vm.vaults v).shares)
    (hamt : amt ≠ 0) (hdov : (vm.vaults v).debt + amt ≤ U256MAX)
    (hw : w ≠ 0) (hwle : w ≤ (vm.vaults v).shares)
    (hval2 : 0 < env.valueOf ad ((vm.vaults v).shares - w) * env.price (env.adapterAsset ad))
    (hov2 : env.price (env.adapterAsset ad) ≤ U256MAX / env.valueOf ad ((vm.vaults v).shares - w))
    (hadmin : vm.riskAdmin caller = true) :
    setCollateral vm caller key ad 0 true =
      .ok { vm with
        collaterals := setFn vm.collaterals key { adapter := ad, ltvBps := 0, enabled := true },
        events := .SetCollateralEvt key ad 0 true :: vm.events } ∧
    vaultHealth env vm v = .error .DivByZero ∧
    borrow env vm u v amt = .error .DivByZero ∧
    withdraw env vm u v w recv = .error .DivByZero := by
  have hh : ∀ vlt : Position, vlt.active = true → 0 < vlt.debt →
      0 < env.valueOf ad vlt.shares * env.price (env.adapterAsset ad) →
      env.price (env.adapterAsset ad) ≤ U256MAX / env.valueOf ad vlt.shares →
      isVaultHealthy env { vm with vaults := setFn vm.vaults v vlt } v =
        .error .DivByZero := by
    intro vlt h1 h2 h3 h4
    unfold isVaultHealthy
    rw [getVaultHealth_zero_ltv env _ v ad ?_ ?_ ?_ ?_ ?_]
    · exact hcfg
    · show (setFn vm.vaults v vlt v).active = true
      rw [setFn_self]
      exact h1
    · show 0 < (setFn vm.vaults v vlt v).debt
      rw [setFn_self]
      exact h2
    · show 0 < env.valueOf ad (setFn vm.vaults v vlt v).shares * env.price (env.adapterAsset ad)
      rw [setFn_self]
      exact h3
    · show env.price (env.adapterAsset ad) ≤ U256MAX / env.valueOf ad (setFn vm.vaults v vlt v).shares
      rw [setFn_self]
      exact h4
  refine ⟨?_, ?_, ?_, ?_⟩
  · unfold setCollateral
    rw [if_neg (by simp [hadmin])]
    rw [if_neg (by decide)]
  · unfold vaultHealth
    rw [howner, if_neg hu]
    exact getVaultHealth_zero_ltv env vm v ad hcfg hact hdebt hval hov
  · unfold borrow
    rw [if_neg (by simp [hpause])]
    rw [howner]
    rw [if_neg hu]
    rw [if_neg (by simp)]
    rw [if_neg (by simp [hact])]
    rw [if_neg hamt]
    dsimp only
    unfold uadd
    rw [if_pos hdov]
    dsimp only
    rw [if_neg (by omega)]
    rw [hh ({ vm.vaults v with debt := (vm.vaults v).debt + amt })
      (by exact hact) (by dsimp only; omega) (by exact hval) (by exact hov)]
  · unfold withdraw
    rw [if_neg (by simp [hpause])]
    rw [howner]
    rw [if_neg hu]
    rw [if_neg (by simp)]
    rw [if_neg (by simp [hact])]
    rw [if_neg hw]
    dsimp only
    rw [if_neg (not_lt.mpr hwle)]
    rw [hh ({ vm.vaults v with shares := (vm.vaults v).shares - w })
      (by exact hact) (by exact hdebt) (by exact hval2) (by exact hov2)]

/-- C10 witness: `vmZ` holds vault 1 (owner 9, debt 1000e18, 1e18 shares,
collateral value 1e36 at LTV 0); borrowing 7 more, withdrawing 0.5e18
shares, and `vaultHealth` all panic with division by zero, and
`setCollateral` accepts the zero-LTV configuration. -/
theorem C10_zero_ltv_health_panics_witness :
    setCollateral vmZ 9 3 4 0 true =
      .ok { vmZ with
        collaterals := setFn vmZ.collaterals 3 { adapter := 4, ltvBps := 0, enabled := true },
        events := .SetCollateralEvt 3 4 0 true :: vmZ.events } ∧
    vaultHealth envX vmZ 1 = .error .DivByZero ∧
    borrow envX vmZ 9 1 7 = .error .DivByZero ∧
    withdraw envX vmZ 9 1 (5 * 10 ^ 17) 0 = .error .DivByZero :=
  C10_zero_ltv_health_panics envX vmZ 1 9 4 7 (5 * 10 ^ 17) 0 9 3
    (by decide) (by decide) (by decide) (by decide) (by decide) (by decide)
    (by decide) (by decide) (by decide) (by decide) (by decide) (by decide)
    (by decide) (by decide) (by decide)

-- =============================================================================
-- C9: bond-refund accounting over arbitrary traces
-- =============================================================================

theorem refundTotal_cons_refund (b2 a2 amt : Nat) (evs : List EngEvent) (b a : Nat) :
    refundTotal (.BondRefunded b2 a2 amt :: evs) b a =
      (if b2 = b ∧ a2 = a then amt else 0) + refundTotal evs b a := by
  by_cases hc : b2 = b ∧ a2 = a
  · simp [refundTotal, List.filterMap_cons, hc]
  · simp [refundTotal, List.filterMap_cons, hc]

theorem refundTotal_cons_committed (b2 a2 c val : Nat) (evs : List EngEvent) (b a : Nat) :
    refundTotal (.BidCommitted b2 a2 c val :: evs) b a = refundTotal evs b a := by
  simp [refundTotal, List.filterMap_cons]

theorem refundTotal_cons_revealed (b2 a2 v q p : Nat) (vl : Bool) (evs : List EngEvent)
    (b a : Nat) :
    refundTotal (.BidRevealed b2 a2 v q p vl :: evs) b a = refundTotal evs b a := by
  simp [refundTotal, List.filterMap_cons]

theorem refundTotal_cons_settled (b2 cp tf : Nat) (evs : List EngEvent) (b a : Nat) :
    refundTotal (.BatchSettled b2 cp tf :: evs) b a = refundTotal evs b a := by
  simp [refundTotal, List.filterMap_cons]

theorem refundTotal_cons_slashed (b2 a2 amt : Nat) (evs : List EngEvent) (b a : Nat) :
    refundTotal (.BondSlashed b2 a2 amt :: evs) b a = refundTotal evs b a := by
  simp [refundTotal, List.filterMap_cons]

theorem refundTotal_cons_started (b2 t1 t2 : Nat) (evs : List EngEvent) (b a : Nat) :
    refundTotal (.BatchStarted b2 t1 t2 :: evs) b a = refundTotal evs b a := by
  simp [refundTotal, List.filterMap_cons]

theorem refundTotal_cons_enqueued (b2 v : Nat) (evs : List EngEvent) (b a : Nat) :
    refundTotal (.BatchEnqueued b2 v :: evs) b a = refundTotal evs b a := by
  simp [refundTotal, List.filterMap_cons]

theorem lastCommitBond_cons_committed (b2 a2 c val : Nat) (evs : List EngEvent) (b a : Nat) :
    lastCommitBond (.BidCommitted b2 a2 c val :: evs) b a =
      if b2 = b ∧ a2 = a then val else lastCommitBond evs b a := by
  by_cases hc : b2 = b ∧ a2 = a
  · simp [lastCommitBond, List.findSome?_cons, hc]
  · simp [lastCommitBond, List.findSome?_cons, hc]

theorem lastCommitBond_cons_refund (b2 a2 amt : Nat) (evs : List EngEvent) (b a : Nat) :
    lastCommitBond (.BondRefunded b2 a2 amt :: evs) b a = lastCommitBond evs b a := by
  simp [lastCommitBond, List.findSome?_cons]

theorem lastCommitBond_cons_revealed (b2 a2 v q p : Nat) (vl : Bool) (evs : List EngEvent)
    (b a : Nat) :
    lastCommitBond (.BidRevealed b2 a2 v q p vl :: evs) b a = lastCommitBond evs b a := by
  simp [lastCommitBond, List.findSome?_cons]

theorem lastCommitBond_cons_settled (b2 cp tf : Nat) (evs : List EngEvent) (b a : Nat) :
    lastCommitBond (.BatchSettled b2 cp tf :: evs) b a = lastCommitBond evs b a := by
  simp [lastCommitBond, List.findSome?_cons]

theorem lastCommitBond_cons_slashed (b2 a2 amt : Nat) (evs : List EngEvent) (b a : Nat) :
    lastCommitBond (.BondSlashed b2 a2 amt :: evs) b a = lastCommitBond evs b a := by
  simp [lastCommitBond, List.findSome?_cons]

theorem lastCommitBond_cons_started (b2 t1 t2 : Nat) (evs : List EngEvent) (b a : Nat) :
    lastCommitBond (.BatchStarted b2 t1 t2 :: evs) b a = lastCommitBond evs b a := by
  simp [lastCommitBond, List.findSome?_cons]

theorem lastCommitBond_cons_enqueued (b2 v : Nat) (evs : List EngEvent) (b a : Nat) :
    lastCommitBond (.BatchEnqueued b2 v :: evs) b a = lastCommitBond evs b a := by
  simp [lastCommitBond, List.findSome?_cons]

/-- Steps that keep the bond ledger, the phase deadlines, and the refund /
commit event history untouched preserve the invariant (with the clock moved
forward). -/
theorem bondInv_preserve_irrelevant (s n : Sys) (tcur t : Nat) (hts : tcur ≤ t)
    (hinv : BondInv s tcur)
    (hact : n.eng.activeBatchId = s.eng.activeBatchId)
    (hbonds : n.eng.bonds = s.eng.bonds)
    (hsrv : ∀ b, (n.eng.batches b).startRevealTs = (s.eng.batches b).startRevealTs)
    (href : ∀ b a, refundTotal n.eng.events b a = refundTotal s.eng.events b a)
    (hlast : ∀ b a, lastCommitBond n.eng.events b a = lastCommitBond s.eng.events b a) :
    BondInv n t := by
  intro b a
  obtain ⟨h1, h2, h3⟩ := hinv b a
  refine ⟨?_, ?_, ?_⟩
  · rw [href, hbonds, hlast]
    exact h1
  · rw [href, hsrv]
    intro hp
    exact le_trans (h2 hp) hts
  · rw [hact, hbonds, href, hlast]
    exact h3

theorem setFn_startRevealTs (f : Nat → Batch) (k : Nat) (nb : Batch)
    (hnb : nb.startRevealTs = (f k).startRevealTs) (b2 : Nat) :
    (setFn f k nb b2).startRevealTs = (f b2).startRevealTs := by
  unfold setFn
  by_cases hb : b2 = k
  · rw [if_pos hb, hb, hnb]
  · rw [if_neg hb]

theorem enqueue_ok_shape (s : EngineState) (caller vaultId : Nat) (s2 : EngineState)
    (h : enqueue s caller vaultId = .ok s2) :
    s2.activeBatchId = s.activeBatchId ∧ s2.bonds = s.bonds ∧ s2.batches = s.batches ∧
      s2.events = .BatchEnqueued s.activeBatchId vaultId :: s.events := by
  unfold enqueue at h
  split at h
  · cases h
  · split at h
    · cases h
    · obtain rfl := Except.ok.inj h
      exact ⟨rfl, rfl, rfl, rfl⟩

theorem commitBid_ok_shape (cfg : EngCfg) (s : EngineState)
    (caller value batchId commitment t : Nat) (s2 : EngineState)
    (h : commitBid cfg s caller value batchId commitment t = .ok s2) :
    s2.activeBatchId = s.activeBatchId ∧
    s2.batches = s.batches ∧
    s2.bonds = setFn2 s.bonds batchId caller value ∧
    s2.events = .BidCommitted batchId caller commitment value :: s.events ∧
    batchId ≤ s.activeBatchId ∧
    t < (s.batches batchId).startRevealTs := by
  unfold commitBid at h
  dsimp only at h
  split at h
  · cases h
  · rename_i hid
    split at h
    · cases h
    · split at h
      · cases h
      · split at h
        · cases h
        · rename_i htw
          split at h
          · cases h
          · obtain rfl := Except.ok.inj h
            push_neg at hid
            exact ⟨rfl, rfl, rfl, rfl, hid.2, not_le.mp htw⟩

theorem revealBid_ok_shape (cfg : EngCfg) (s : EngineState)
    (caller batchId vaultId qty price salt t : Nat) (s2 : EngineState)
    (h : revealBid cfg s caller batchId vaultId qty price salt t = .ok s2) :
    s2.activeBatchId = s.activeBatchId ∧
    (∀ b2, (s2.batches b2).startRevealTs = (s.batches b2).startRevealTs) ∧
    (s.batches batchId).startRevealTs ≤ t ∧
    batchId ≤ s.activeBatchId ∧
    ((s2.bonds = setFn2 s.bonds batchId caller 0 ∧
      ∃ vb, s2.events = .BidRevealed batchId caller vaultId qty price vb ::
        .BondRefunded batchId caller (s.bonds batchId caller) :: s.events) ∨
     (s2.bonds = s.bonds ∧
      ∃ vb, s2.events = .BidRevealed batchId caller vaultId qty price vb :: s.events)) := by
  unfold revealBid at h
  dsimp only at h
  split at h
  · cases h
  · rename_i hid
    split at h
    · cases h
    · rename_i hnr
      split at h
      · cases h
      · split at h
        · cases h
        · split at h
          · cases h
          · split at h
            · cases h
            · obtain rfl := Except.ok.inj h
              push_neg at hid
              cases hv : (keccakBid vaultId qty price salt caller == s.commitments batchId caller) with
              | true =>
                  refine ⟨rfl, ?_, not_lt.mp hnr, hid.2, ?_⟩
                  · intro b2
                    refine setFn_startRevealTs s.batches batchId _ ?_ b2
                    rfl
                  · left
                    exact ⟨rfl, true, rfl⟩
              | false =>
                  refine ⟨rfl, ?_, not_lt.mp hnr, hid.2, ?_⟩
                  · intro b2
                    refine setFn_startRevealTs s.batches batchId _ ?_ b2
                    rfl
                  · right
                    exact ⟨rfl, false, rfl⟩

theorem startBatchCore_ok_shape (cfg : EngCfg) (s : EngineState) (t : Nat) (s2 : EngineState)
    (h : startBatchCore cfg s t = .ok s2) :
    s2.activeBatchId = s.activeBatchId + 1 ∧
    s2.bonds = s.bonds ∧
    (∀ b2, b2 ≠ s.activeBatchId + 1 → s2.batches b2 = s.batches b2) ∧
    ∃ srv, s2.events = .BatchStarted (s.activeBatchId + 1) t srv :: s.events := by
  unfold startBatchCore at h
  split at h
  · cases h
  · rename_i newId hnew
    have hid : newId = s.activeBatchId + 1 := by
      unfold uadd at hnew
      split at hnew
      · exact (Except.ok.inj hnew).symm
      · cases hnew
    subst hid
    split at h
    · cases h
    · rename_i srv hsrv
      dsimp only at h
      split at h
      · cases h
      · rename_i tq htq
        obtain rfl := Except.ok.inj h
        refine ⟨rfl, rfl, ?_, srv, rfl⟩
        intro b2 hb2
        show setFn s.batches (s.activeBatchId + 1) _ b2 = s.batches b2
        unfold setFn
        rw [if_neg hb2]

theorem startBatch_ok_shape (cfg : EngCfg) (s : EngineState) (t : Nat) (s2 : EngineState)
    (h : startBatch cfg s t = .ok s2) :
    s2.activeBatchId = s.activeBatchId + 1 ∧
    s2.bonds = s.bonds ∧
    (∀ b2, b2 ≠ s.activeBatchId + 1 → s2.batches b2 = s.batches b2) ∧
    ∃ srv, s2.events = .BatchStarted (s.activeBatchId + 1) t srv :: s.events := by
  unfold startBatch at h
  dsimp only at h
  split at h
  · cases h
  · split at h
    · split at h
      · cases h
      · split at h
        · cases h
        · exact startBatchCore_ok_shape cfg s t s2 h
    · exact startBatchCore_ok_shape cfg s t s2 h

theorem settle_ok_bonds (cfg : EngCfg) (env : Env) (s : Sys) (batchId t : Nat) (s2 : Sys)
    (h : settle cfg env s batchId t = .ok s2) :
    s2.eng.activeBatchId = s.eng.activeBatchId ∧
    (∀ b2, (s2.eng.batches b2).startRevealTs = (s.eng.batches b2).startRevealTs) ∧
    s2.eng.bonds = s.eng.bonds ∧
    ∃ cp, s2.eng.events = .BatchSettled batchId cp (s.eng.batches batchId).totalQtyOffered ::
      .BondSlashed batchId 0 0 :: s.eng.events := by
  unfold settle at h
  dsimp only at h
  unfold slashBonds at h
  dsimp only at h
  split at h
  · cases h
  · split at h
    · cases h
    · split at h
      · cases h
      · split at h
        · cases h
        · split at h
          · cases h
          · rename_i cp hcp
            split at h
            · cases h
            · rename_i s4 hif
              obtain rfl := Except.ok.inj h
              have hx : ∀ x : Sys,
                  (if 0 < cp then executeSettlement cfg env x batchId cp else .ok x) = .ok s4 →
                    s4.eng = x.eng := by
                intro x hx2
                split at hx2
                · exact executeSettlement_eng _ _ _ _ _ _ hx2
                · obtain rfl := Except.ok.inj hx2
                  rfl
              have heng := hx _ hif
              refine ⟨?_, ?_, ?_, cp, ?_⟩
              · show s4.eng.activeBatchId = s.eng.activeBatchId
                rw [heng]
              · intro b2
                show (s4.eng.batches b2).startRevealTs = (s.eng.batches b2).startRevealTs
                rw [heng]
                refine Eq.trans (setFn_startRevealTs _ batchId _ ?_ b2)
                  (setFn_startRevealTs s.eng.batches batchId _ ?_ b2)
                · rw [setFn_self]
                · rfl
              · show s4.eng.bonds = s.eng.bonds
                rw [heng]
              · show _ :: s4.eng.events = _
                rw [heng]

/-- One engine call (succeeding or reverting) preserves the bond-ledger
invariant, moving the clock to the call's timestamp. -/
theorem bondInv_exec (cfg : EngCfg) (env : Env) (s : Sys) (op : Op) (t tcur : Nat)
    (hts : tcur ≤ t) (hinv : BondInv s tcur) :
    BondInv (execSys cfg env s op t) t := by
  have hkeep : BondInv s t :=
    bondInv_preserve_irrelevant s s tcur t hts hinv rfl rfl (fun _ => rfl)
      (fun _ _ => rfl) (fun _ _ => rfl)
  unfold execSys stepSys
  cases op with
  | enqueueOp c v =>
      dsimp only
      cases he : enqueue s.eng c v with
      | error e => exact hkeep
      | ok e2 =>
          obtain ⟨ha, hb, hbat, hev⟩ := enqueue_ok_shape s.eng c v e2 he
          exact bondInv_preserve_irrelevant s { s with eng := e2 } tcur t hts hinv
            ha hb (fun b2 => by rw [hbat])
            (fun b2 a2 => by rw [hev, refundTotal_cons_enqueued])
            (fun b2 a2 => by rw [hev, lastCommitBond_cons_enqueued])
  | startBatchOp =>
      dsimp only
      cases he : startBatch cfg s.eng t with
      | error e => exact hkeep
      | ok e2 =>
          obtain ⟨ha, hb, hbat, srv, hev⟩ := startBatch_ok_shape cfg s.eng t e2 he
          intro b2 a2
          obtain ⟨h1, h2, h3⟩ := hinv b2 a2
          have hrt : refundTotal e2.events b2 a2 = refundTotal s.eng.events b2 a2 := by
            rw [hev, refundTotal_cons_started]
          have hlc : lastCommitBond e2.events b2 a2 = lastCommitBond s.eng.events b2 a2 := by
            rw [hev, lastCommitBond_cons_started]
          refine ⟨?_, ?_, ?_⟩
          · show refundTotal e2.events b2 a2 + e2.bonds b2 a2 ≤ lastCommitBond e2.events b2 a2
            rw [hrt, hlc, hb]
            exact h1
          · show 0 < refundTotal e2.events b2 a2 → (e2.batches b2).startRevealTs ≤ t
            rw [hrt]
            intro hp
            have hle : ¬ s.eng.activeBatchId < b2 := by
              intro hgt
              obtain ⟨_, z2, _⟩ := h3 hgt
              omega
            have hne : b2 ≠ s.eng.activeBatchId + 1 := by omega
            rw [hbat b2 hne]
            exact le_trans (h2 hp) hts
          · show e2.activeBatchId < b2 → e2.bonds b2 a2 = 0 ∧
              refundTotal e2.events b2 a2 = 0 ∧ lastCommitBond e2.events b2 a2 = 0
            rw [ha, hb, hrt, hlc]
            intro hgt
            exact h3 (by omega)
  | commitOp c val bi com =>
      dsimp only
      cases he : commitBid cfg s.eng c val bi com t with
      | error e => exact hkeep
      | ok e2 =>
          obtain ⟨ha, hbat, hb, hev, hble, htw⟩ :=
            commitBid_ok_shape cfg s.eng c val bi com t e2 he
          intro b2 a2
          obtain ⟨h1, h2, h3⟩ := hinv b2 a2
          have hrt : refundTotal e2.events b2 a2 = refundTotal s.eng.events b2 a2 := by
            rw [hev, refundTotal_cons_committed]
          have hlc : lastCommitBond e2.events b2 a2 =
              if bi = b2 ∧ c = a2 then val else lastCommitBond s.eng.events b2 a2 := by
            rw [hev, lastCommitBond_cons_committed]
          refine ⟨?_, ?_, ?_⟩
          · show refundTotal e2.events b2 a2 + e2.bonds b2 a2 ≤ lastCommitBond e2.events b2 a2
            rw [hrt, hlc, hb]
            unfold setFn2
            by_cases hk : b2 = bi ∧ a2 = c
            · rw [if_pos hk, if_pos ⟨hk.1.symm, hk.2.symm⟩]
              have hz : refundTotal s.eng.events b2 a2 = 0 := by
                by_contra hnz
                have hpos := h2 (Nat.pos_of_ne_zero hnz)
                rw [hk.1] at hpos
                omega
              omega
            · rw [if_neg hk, if_neg (fun hkk => hk ⟨hkk.1.symm, hkk.2.symm⟩)]
              exact h1
          · show 0 < refundTotal e2.events b2 a2 → (e2.batches b2).startRevealTs ≤ t
            rw [hrt, hbat]
            intro hp
            exact le_trans (h2 hp) hts
          · show e2.activeBatchId < b2 → e2.bonds b2 a2 = 0 ∧
              refundTotal e2.events b2 a2 = 0 ∧ lastCommitBond e2.events b2 a2 = 0
            rw [ha]
            intro hgt
            obtain ⟨z1, z2, z3⟩ := h3 hgt
            refine ⟨?_, ?_, ?_⟩
            · rw [hb]
              unfold setFn2
              rw [if_neg (by rintro ⟨h5, -⟩; omega)]
              exact z1
            · rw [hrt]
              exact z2
            · rw [hlc, if_neg (by rintro ⟨h5, -⟩; omega)]
              exact z3
  | revealOp c bi v q p sa =>
      dsimp only
      cases he : revealBid cfg s.eng c bi v q p sa t with
      | error e => exact hkeep
      | ok e2 =>
          obtain ⟨ha, hsrv, htw, hble, hdisj⟩ :=
            revealBid_ok_shape cfg s.eng c bi v q p sa t e2 he
          rcases hdisj with ⟨hb, vb, hev⟩ | ⟨hb, vb, hev⟩
          · intro b2 a2
            obtain ⟨h1, h2, h3⟩ := hinv b2 a2
            have hrt : refundTotal e2.events b2 a2 =
                (if bi = b2 ∧ c = a2 then s.eng.bonds bi c else 0) +
                  refundTotal s.eng.events b2 a2 := by
              rw [hev, refundTotal_cons_revealed, refundTotal_cons_refund]
            have hlc : lastCommitBond e2.events b2 a2 = lastCommitBond s.eng.events b2 a2 := by
              rw [hev, lastCommitBond_cons_revealed, lastCommitBond_cons_refund]
            refine ⟨?_, ?_, ?_⟩
            · show refundTotal e2.events b2 a2 + e2.bonds b2 a2 ≤ lastCommitBond e2.events b2 a2
              rw [hrt, hlc, hb]
              unfold setFn2
              by_cases hk : b2 = bi ∧ a2 = c
              · rw [if_pos hk, if_pos ⟨hk.1.symm, hk.2.symm⟩]
                have heq : s.eng.bonds bi c = s.eng.bonds b2 a2 := by rw [hk.1, hk.2]
                rw [heq]
                omega
              · rw [if_neg hk, if_neg (fun hkk => hk ⟨hkk.1.symm, hkk.2.symm⟩)]
                omega
            · show 0 < refundTotal e2.events b2 a2 → (e2.batches b2).startRevealTs ≤ t
              rw [hrt, hsrv b2]
              intro hp
              by_cases hk : bi = b2 ∧ c = a2
              · rw [← hk.1]
                exact htw
              · rw [if_neg hk] at hp
                exact le_trans (h2 (by omega)) hts
            · show e2.activeBatchId < b2 → e2.bonds b2 a2 = 0 ∧
                refundTotal e2.events b2 a2 = 0 ∧ lastCommitBond e2.events b2 a2 = 0
              rw [ha]
              intro hgt
              obtain ⟨z1, z2, z3⟩ := h3 hgt
              refine ⟨?_, ?_, ?_⟩
              · rw [hb]
                unfold setFn2
                rw [if_neg (by rintro ⟨h5, -⟩; omega)]
                exact z1
              · rw [hrt, if_neg (by rintro ⟨h5, -⟩; omega), z2]
              · rw [hlc]
                exact z3
          · exact bondInv_preserve_irrelevant s { s with eng := e2 } tcur t hts hinv
              ha hb hsrv
              (fun b3 a3 => by rw [hev, refundTotal_cons_revealed])
              (fun b3 a3 => by rw [hev, lastCommitBond_cons_revealed])
  | settleOp bi =>
      dsimp only
      cases he : settle cfg env s bi t with
      | error e => exact hkeep
      | ok s2 =>
          obtain ⟨ha, hsrv, hb2, cp, hev⟩ := settle_ok_bonds cfg env s bi t s2 he
          exact bondInv_preserve_irrelevant s s2 tcur t hts hinv ha hb2 hsrv
            (fun b3 a3 => by rw [hev, refundTotal_cons_settled, refundTotal_cons_slashed])
            (fun b3 a3 => by rw [hev, lastCommitBond_cons_settled, lastCommitBond_cons_slashed])

/-- The invariant carries over any trace with nondecreasing timestamps. -/
theorem bondInv_trace (cfg : EngCfg) (env : Env) :
    ∀ (tr : List (Op × Nat)) (s : Sys) (t0 : Nat),
      TimesMono t0 tr → BondInv s t0 →
      BondInv (execTrace cfg env s tr) (lastTime t0 tr) := by
  intro tr
  induction tr with
  | nil =>
      intro s t0 _ hi
      exact hi
  | cons p rest ih =>
      obtain ⟨op, t⟩ := p
      intro s t0 hm hi
      obtain ⟨h1, h2⟩ := hm
      exact ih (execSys cfg env s op t) t h2 (bondInv_exec cfg env s op t t0 h1 hi)

/-- The invariant holds in the deployed (constructor) state. -/
theorem bondInv_init (deployer : Nat) (vm0 : VMState) (t0 : Nat) :
    BondInv { eng := initEngine deployer, vm := vm0 } t0 := by
  intro b a
  refine ⟨?_, ?_, ?_⟩
  · show refundTotal [] b a + 0 ≤ lastCommitBond [] b a
    simp [refundTotal, lastCommitBond]
  · intro hp
    simp [refundTotal, initEngine] at hp
  · intro _
    exact ⟨rfl, rfl, rfl⟩

/-- C9: over any sequence of engine calls with a monotone clock, starting
from the deployed state, the total value refunded to a bidder for a batch
(sum of its `BondRefunded` events) never exceeds the bond attached to that
bidder's most recent `commitBid` in the batch: `revealBid` zeroes the stored
bond before transferring it, so later valid reveals transfer zero. -/
theorem C9_bond_refunded_at_most_once (cfg : EngCfg) (env : Env) (deployer : Nat)
    (vm0 : VMState) (tr : List (Op × Nat)) (t0 : Nat) (hm : TimesMono t0 tr) (b a : Nat) :
    refundTotal (execTrace cfg env { eng := initEngine deployer, vm := vm0 } tr).eng.events b a ≤
      lastCommitBond (execTrace cfg env { eng := initEngine deployer, vm := vm0 } tr).eng.events
        b a := by
  obtain ⟨h1, _, _⟩ :=
    bondInv_trace cfg env tr { eng := initEngine deployer, vm := vm0 } t0 hm
      (bondInv_init deployer vm0 t0) b a
  omega

/-- C9 witness: on the four-call trace `traceW` (enqueue, start batch,
commit with bond 3, valid reveal) the total refunded to bidder 42 in batch 1
is bounded by the committed bond. -/
theorem C9_bond_refunded_at_most_once_witness :
    refundTotal (execTrace cfgX envX { eng := initEngine 7, vm := vmX } traceW).eng.events 1 42 ≤
      lastCommitBond (execTrace cfgX envX { eng := initEngine 7, vm := vmX } traceW).eng.events
        1 42 :=
  C9_bond_refunded_at_most_once cfgX envX 7 vmX traceW 0
    (by unfold traceW TimesMono; exact ⟨by decide, by decide, by decide, by decide, trivial⟩) 1 42

end DefiAmm
